import Mathlib

/-!
Verification development for the faction bot (fac-bot).

The definitions below are a shallow embedding of the TypeScript sources:

* `src/index.ts` — the target monitor loop (`runMonitoringCycle`,
  `handleDibsButton`) with its in-memory tracking maps;
* `src/warReports/warReportUtils.ts` — `parseWarReportCSV` and
  `verifyPaymentsWithDoubleCheck`;
* `src/warReports/rwPayoutCommand.ts` — the payout computation and the
  payout CSV export;
* `src/warReport.ts` — the aggregate "verify all" duplicate check.

Modelling conventions: JavaScript `Map`s become insertion-ordered
association lists (`List (κ × α)`) with `Map.get`/`set`/`delete` modelled
by `List.lookup` / `mapSet` / `mapDelete`; JavaScript numbers used as
integers become `Nat`/`Int`; the floating-point payout arithmetic is
modelled exactly over `ℚ`; chat-platform message operations are modelled
as an effect trace, with the success/failure of each edit/delete supplied
by an oracle (`ChatOracle`); the fixed natural-language template regex on
transaction texts is modelled by its parse outcome (`Option ParsedIncrease`).
-/

/-! ### JavaScript-style string helpers -/

/-- Whitespace test used by the embeddings of `String.prototype.trim` and
`parseInt` (ASCII whitespace suffices for the strings this program builds). -/
def isJsWhitespace (c : Char) : Bool :=
  c = ' ' || c = '\t' || c = '\n' || c = '\r'

/-- Embedding of `String.prototype.trim` on character lists. -/
def trimChars (cs : List Char) : List Char :=
  ((cs.dropWhile isJsWhitespace).reverse.dropWhile isJsWhitespace).reverse

/-- Numeric value of a maximal leading digit run; `none` when there is no
leading digit (the `NaN` outcome of `parseInt`). -/
def leadingDigitsVal (cs : List Char) : Option Nat :=
  let ds := cs.takeWhile Char.isDigit
  if ds.isEmpty then none
  else some (ds.foldl (fun acc c => acc * 10 + (c.toNat - 48)) 0)

/-- Embedding of JavaScript `parseInt` (base 10): skip leading whitespace,
optional sign, then the maximal digit prefix; `none` models `NaN`. -/
def parseIntJS (s : String) : Option Int :=
  match s.data.dropWhile isJsWhitespace with
  | '-' :: rest => (leadingDigitsVal rest).map (fun n => -(n : Int))
  | '+' :: rest => (leadingDigitsVal rest).map (fun n => (n : Int))
  | cs => (leadingDigitsVal cs).map (fun n => (n : Int))

/-- Embedding of `.replace(/,/g, '')`. -/
def stripCommas (s : String) : String :=
  String.mk (s.data.filter (fun c => c ≠ ','))

/-- Embedding of `String.prototype.includes`: does `needle` occur as a
contiguous substring of `hay`? -/
def jsIncludes : (hay needle : List Char) → Bool
  | [], needle => needle.isEmpty
  | c :: t, needle => needle.isPrefixOf (c :: t) || jsIncludes t needle

/-- Embedding of `String.prototype.toLowerCase` (character-wise). -/
def jsLower (s : String) : List Char :=
  s.data.map Char.toLower

/-- JavaScript truthiness of an optional string (`undefined` and `""` are
falsy). -/
def jsTruthyStr : Option String → Bool
  | none => false
  | some s => !(s = "")

/-- Embedding of `String.prototype.split` with a one-character separator. -/
def splitOnChar (sep : Char) : List Char → List (List Char)
  | [] => [[]]
  | c :: rest =>
    if c = sep then [] :: splitOnChar sep rest
    else
      match splitOnChar sep rest with
      | [] => [[c]]
      | h :: t => (c :: h) :: t

/-- `String.prototype.split` on strings. -/
def jsSplit (sep : Char) (s : String) : List String :=
  (splitOnChar sep s.data).map String.mk

/-- Embedding of `Array.prototype.join` with a one-character separator. -/
def joinChar (sep : Char) (xs : List String) : String :=
  String.mk (List.intercalate [sep] (xs.map String.data))

/-- Leftmost match of the regex `\[(\d+)\]`: the digits of the first
bracketed numeric id occurring in the text, if any. -/
def bracketIdAux : List Char → Option String
  | [] => none
  | c :: rest =>
    if c = '[' then
      let ds := rest.takeWhile Char.isDigit
      if !ds.isEmpty && (rest.drop ds.length).head? = some ']' then some (String.mk ds)
      else bracketIdAux rest
    else bracketIdAux rest

/-- Embedding of `text.match(/\[(\d+)\]/)` returning the captured id. -/
def extractBracketId (s : String) : Option String :=
  bracketIdAux s.data

/-- Embedding of `text.split('[')[0].trim()`. -/
def nameBeforeBracket (s : String) : String :=
  String.mk (trimChars (s.data.takeWhile (fun c => c ≠ '[')))

/-! ### Association-list model of JavaScript `Map` -/

/-- `Map.prototype.set`: update in place when the key is present (JS maps
keep the original insertion position), append otherwise. -/
def mapSet {κ α : Type} [DecidableEq κ] (m : List (κ × α)) (k : κ) (v : α) : List (κ × α) :=
  if (List.lookup k m).isSome then
    m.map (fun e => if e.1 = k then (k, v) else e)
  else m ++ [(k, v)]

/-- `Map.prototype.delete`. -/
def mapDelete {κ α : Type} [DecidableEq κ] (m : List (κ × α)) (k : κ) : List (κ × α) :=
  m.filter (fun e => e.1 ≠ k)

theorem lookup_cons_ite {κ α : Type} [DecidableEq κ] (a : κ) (b : α) (t : List (κ × α)) (j : κ) :
    List.lookup j ((a, b) :: t) = if j = a then some b else List.lookup j t := by
  rw [List.lookup_cons]
  by_cases h : j = a
  · have hb : (j == a) = true := beq_iff_eq.mpr h
    simp [hb, h]
  · have hb : (j == a) = false := beq_eq_false_iff_ne.mpr h
    simp [hb, h]

theorem mapDelete_cons {κ α : Type} [DecidableEq κ] (a : κ) (b : α) (t : List (κ × α)) (k : κ) :
    mapDelete ((a, b) :: t) k = if a = k then mapDelete t k else (a, b) :: mapDelete t k := by
  by_cases h : a = k <;> simp [mapDelete, List.filter_cons, h]

theorem lookup_mapDelete {κ α : Type} [DecidableEq κ] (m : List (κ × α)) (k j : κ) :
    List.lookup j (mapDelete m k) = if j = k then none else List.lookup j m := by
  induction m with
  | nil => by_cases h : j = k <;> simp [mapDelete, h]
  | cons e t ih =>
    obtain ⟨a, b⟩ := e
    rw [mapDelete_cons]
    by_cases hak : a = k
    · subst hak
      rw [if_pos rfl, ih]
      simp only [lookup_cons_ite]
      by_cases hj : j = a <;> simp [hj]
    · rw [if_neg hak]
      simp only [lookup_cons_ite, ih]
      by_cases hja : j = a
      · subst hja
        simp [fun h : j = k => hak h]
      · simp [hja]

theorem lookup_map_update {κ α : Type} [DecidableEq κ] (t : List (κ × α)) (k j : κ) (v : α) :
    List.lookup j (t.map (fun e => if e.1 = k then (k, v) else e)) =
      if j = k then (List.lookup k t).map (fun _ => v) else List.lookup j t := by
  induction t with
  | nil => by_cases h : j = k <;> simp [h]
  | cons e t ih =>
    obtain ⟨a, b⟩ := e
    by_cases hak : a = k
    · subst hak
      simp only [List.map_cons, if_pos rfl, lookup_cons_ite, ih]
      by_cases hj : j = a <;> simp [lookup_cons_ite, hj, ih]
    · simp only [List.map_cons, if_neg hak, lookup_cons_ite, ih]
      by_cases hja : j = a
      · subst hja
        simp [fun h : j = k => hak h, Ne.symm hak]
      · by_cases hjk : j = k <;> simp [hja, hjk, Ne.symm hak]

theorem lookup_append_single {κ α : Type} [DecidableEq κ] (t : List (κ × α)) (k j : κ) (v : α)
    (hk : List.lookup k t = none) :
    List.lookup j (t ++ [(k, v)]) = if j = k then some v else List.lookup j t := by
  induction t with
  | nil => by_cases h : j = k <;> simp [lookup_cons_ite, h]
  | cons e t ih =>
    obtain ⟨a, b⟩ := e
    rw [lookup_cons_ite] at hk
    by_cases hka : k = a
    · simp [hka] at hk
    · rw [if_neg hka] at hk
      rw [List.cons_append]
      simp only [lookup_cons_ite, ih hk]
      by_cases hja : j = a
      · subst hja
        rw [if_pos rfl, if_pos rfl, if_neg (fun h : j = k => hka h.symm)]
      · simp [hja]

theorem lookup_mapSet {κ α : Type} [DecidableEq κ] (m : List (κ × α)) (k j : κ) (v : α) :
    List.lookup j (mapSet m k v) = if j = k then some v else List.lookup j m := by
  unfold mapSet
  by_cases hs : (List.lookup k m).isSome
  · rw [if_pos hs, lookup_map_update]
    obtain ⟨w, hw⟩ := Option.isSome_iff_exists.mp hs
    by_cases hj : j = k <;> simp [hj, hw]
  · rw [if_neg hs, lookup_append_single]
    exact Option.not_isSome_iff_eq_none.mp hs

/-! ### Target monitor (src/index.ts) -/

/-- Monitoring configuration; only the field read by the classification in
`runMonitoringCycle` is modelled (`maxHospitalTime`, in seconds). -/
structure MonitoringConfig where
  maxHospitalTime : Int
  deriving Repr, DecidableEq

/-- Member status as returned by the roster endpoint. `untilTime` models the
source field `until` (a Lean keyword). -/
structure Status where
  state : String
  untilTime : Int
  deriving Repr, DecidableEq

/-- The roster member fields read by the monitoring cycle. -/
structure Player where
  id : Nat
  name : String
  level : Nat
  status : Status
  deriving Repr, DecidableEq

/-- The two state tags the cycle writes into the tracking map
(`'hospital'` / `'available'`). -/
inductive TrackState
  | hospital
  | available
  deriving Repr, DecidableEq

/-- One entry of the `playerMessages` map: chat message id plus state tag. -/
structure Tracking where
  messageId : Nat
  state : TrackState
  deriving Repr, DecidableEq

/-- One entry of the `dibsRegistry` map. -/
structure DibsClaim where
  userId : String
  username : String
  timestamp : Int
  deriving Repr, DecidableEq

/-- The mutable monitor state: `playerMessages`, the header/footer message
ids, and the dibs registry. -/
structure MonitorState where
  playerMessages : List (Nat × Tracking)
  headerMessageId : Option Nat
  footerMessageId : Option Nat
  dibsRegistry : List (Nat × DibsClaim)
  deriving Repr, DecidableEq

/-- `player.status.state === "Hospital"`. -/
def isInHospital (p : Player) : Bool :=
  p.status.state = "Hospital"

/-- `hospitalTimeLeft = isInHospital ? player.status.until - now : 0`. -/
def hospitalTimeLeft (now : Int) (p : Player) : Int :=
  if isInHospital p then p.status.untilTime - now else 0

/-- `inTargetTimeRange = isInHospital && hospitalTimeLeft <= maxHospitalTime
&& hospitalTimeLeft > 0`. -/
def inTargetTimeRange (cfg : MonitoringConfig) (now : Int) (p : Player) : Bool :=
  isInHospital p && hospitalTimeLeft now p ≤ cfg.maxHospitalTime && hospitalTimeLeft now p > 0

/-- Outcome of the per-member classification block of `runMonitoringCycle`. -/
structure ClassifyResult where
  needsUpdate : Bool
  needsDeletion : Bool
  isInHospital : Bool
  inTargetTimeRange : Bool
  deriving Repr, DecidableEq

/-- The per-member classification of `runMonitoringCycle` (the if/else-if
chain over `currentTracking`), a pure function of the member's status,
time remaining, level and prior tracking entry. -/
def classifyMember (cfg : MonitoringConfig) (now : Int) (tracked : Option Tracking)
    (p : Player) : ClassifyResult :=
  let isHosp := isInHospital p
  let inRange := inTargetTimeRange cfg now p
  match tracked with
  | some currentTracking =>
    if currentTracking.state = TrackState.hospital && !inRange then
      ⟨false, true, isHosp, inRange⟩
    else if currentTracking.state = TrackState.available && !inRange then
      ⟨false, true, isHosp, inRange⟩
    else if currentTracking.state = TrackState.available && inRange then
      ⟨true, false, isHosp, inRange⟩
    else if inRange then
      ⟨true, false, isHosp, inRange⟩
    else
      ⟨false, false, isHosp, inRange⟩
  | none =>
    if inRange || (!isHosp && p.level ≤ 100) then
      ⟨true, false, isHosp, inRange⟩
    else
      ⟨false, false, isHosp, inRange⟩

/-- Trace of the chat operations a cycle performs, in program order. The
`ok` flag on edits/deletes records whether the underlying chat call
succeeded (failures are caught by the cycle). -/
inductive ChatEffect
  | sendHeader (msgId : Nat)
  | sendFooter (msgId : Nat)
  | deleteHeader (msgId : Nat)
  | deleteFooter (msgId : Nat)
  | deleteMsg (playerId msgId : Nat) (ok : Bool)
  | editMsg (playerId msgId : Nat) (ok : Bool)
  | createMsg (playerId msgId : Nat)
  deriving Repr, DecidableEq

/-- Oracle fixing which per-message chat operations fail in a cycle
(`message.edit` / `message.delete` throwing), keyed by player id. -/
structure ChatOracle where
  editFails : Nat → Bool
  deleteFails : Nat → Bool

/-- The `currentState` tag the update block writes (`'hospital'` when the
member is in the target time range, `'available'` otherwise). -/
def currentStateFor (cr : ClassifyResult) : TrackState :=
  if cr.inTargetTimeRange then TrackState.hospital else TrackState.available

/-- One iteration of the deletion block of `runMonitoringCycle`: if the
member `needsDeletion` and is tracked, attempt to delete the tracked
message (errors are caught and logged) and drop the tracking entry
unconditionally. -/
def deletionStep (orc : ChatOracle) (acc : List (Nat × Tracking) × List ChatEffect)
    (x : Player × ClassifyResult) : List (Nat × Tracking) × List ChatEffect :=
  if x.2.needsDeletion then
    match List.lookup x.1.id acc.1 with
    | some tracking =>
      (mapDelete acc.1 x.1.id,
       acc.2 ++ [ChatEffect.deleteMsg x.1.id tracking.messageId (!orc.deleteFails x.1.id)])
    | none => acc
  else acc

/-- Deletion block of `runMonitoringCycle` over all processed members. -/
def deletionPass (orc : ChatOracle) (xs : List (Player × ClassifyResult))
    (pm : List (Nat × Tracking)) : List (Nat × Tracking) × List ChatEffect :=
  xs.foldl (deletionStep orc) (pm, [])

/-- One iteration of the update block of `runMonitoringCycle`: if the
member `needsUpdate`, edit the tracked message when one exists (on an edit
error a replacement message is sent immediately and tracked in its place),
otherwise send and track a new message. Fresh message ids are drawn from
the counter. -/
def updateStep (orc : ChatOracle) (acc : List (Nat × Tracking) × List ChatEffect × Nat)
    (x : Player × ClassifyResult) : List (Nat × Tracking) × List ChatEffect × Nat :=
  if x.2.needsUpdate then
    let currentState := currentStateFor x.2
    match List.lookup x.1.id acc.1 with
    | some tracking =>
      if orc.editFails x.1.id then
        (mapSet acc.1 x.1.id ⟨acc.2.2, currentState⟩,
         acc.2.1 ++ [ChatEffect.editMsg x.1.id tracking.messageId false,
                     ChatEffect.createMsg x.1.id acc.2.2],
         acc.2.2 + 1)
      else
        (mapSet acc.1 x.1.id ⟨tracking.messageId, currentState⟩,
         acc.2.1 ++ [ChatEffect.editMsg x.1.id tracking.messageId true],
         acc.2.2)
    | none =>
      (mapSet acc.1 x.1.id ⟨acc.2.2, currentState⟩,
       acc.2.1 ++ [ChatEffect.createMsg x.1.id acc.2.2],
       acc.2.2 + 1)
  else acc

/-- Update block of `runMonitoringCycle` over all processed members. -/
def updatePass (orc : ChatOracle) (xs : List (Player × ClassifyResult))
    (pm : List (Nat × Tracking)) (nextMsgId : Nat) :
    List (Nat × Tracking) × List ChatEffect × Nat :=
  xs.foldl (updateStep orc) (pm, [], nextMsgId)

/-- Result of one monitoring cycle: the new monitor state, the trace of
chat operations performed, and the next fresh message id. -/
structure CycleResult where
  state : MonitorState
  effects : List ChatEffect
  nextMsgId : Nat
  deriving Repr, DecidableEq

/-- Per-member classification of the whole roster against the pre-cycle
tracking map (the `memberPromises` block). -/
def processedOf (cfg : MonitoringConfig) (now : Int) (s : MonitorState)
    (members : List Player) : List (Player × ClassifyResult) :=
  members.map (fun p => (p, classifyMember cfg now (List.lookup p.id s.playerMessages) p))

/-- Header block: create the header message when none exists and some
member needs an update. Returns (header id, effects, next fresh id). -/
def headerPass (s : MonitorState) (processed : List (Player × ClassifyResult)) (c : Nat) :
    Option Nat × List ChatEffect × Nat :=
  if s.headerMessageId = none && processed.any (fun x => x.2.needsUpdate) then
    (some c, [ChatEffect.sendHeader c], c + 1)
  else (s.headerMessageId, [], c)

/-- Footer block: create the footer message when none exists and the
tracking map is nonempty. -/
def footerPass (s : MonitorState) (pm : List (Nat × Tracking)) (c : Nat) :
    Option Nat × List ChatEffect × Nat :=
  if s.footerMessageId = none && !pm.isEmpty then
    (some c, [ChatEffect.sendFooter c], c + 1)
  else (s.footerMessageId, [], c)

/-- Cleanup block: when nothing is tracked any more, delete the header and
footer messages (best effort, ids reset either way). -/
def cleanupPass (pm : List (Nat × Tracking)) (headerId footerId : Option Nat) :
    Option Nat × Option Nat × List ChatEffect :=
  if pm.isEmpty then
    (none, none,
     (match headerId with
      | some h => [ChatEffect.deleteHeader h]
      | none => []) ++
     (match footerId with
      | some f => [ChatEffect.deleteFooter f]
      | none => []))
  else (headerId, footerId, [])

/-- Embedding of `runMonitoringCycle` (src/index.ts lines 280-501).
`fetchResult` is the outcome of the roster fetch: `none` models a network
error or malformed payload (the `catch` branch, which only logs), `some
members` the parsed roster. The body mirrors the source: classify all
members against the pre-cycle `playerMessages`, create the header if
needed, delete messages for members that no longer qualify, update/create
messages for qualifying members, create the footer if needed, and drop
header/footer when the tracked set has become empty. -/
def runMonitoringCycle (cfg : MonitoringConfig) (now : Int) (orc : ChatOracle)
    (fetchResult : Option (List Player)) (s : MonitorState) (nextMsgId : Nat) : CycleResult :=
  match fetchResult with
  | none => ⟨s, [], nextMsgId⟩
  | some members =>
    let processed := processedOf cfg now s members
    let header := headerPass s processed nextMsgId
    let del := deletionPass orc processed s.playerMessages
    let upd := updatePass orc processed del.1 header.2.2
    let footer := footerPass s upd.1 upd.2.2
    let cleanup := cleanupPass upd.1 header.1 footer.1
    ⟨⟨upd.1, cleanup.1, cleanup.2.1, s.dibsRegistry⟩,
     header.2.1 ++ del.2 ++ upd.2.1 ++ footer.2.1 ++ cleanup.2.2,
     footer.2.2⟩

/-- Outcome reported to the user by the dibs button handler. -/
inductive DibsOutcome
  | claimed
  | released
  | rejected (holder : String)
  deriving Repr, DecidableEq

/-- Embedding of the registry logic of `handleDibsButton` (src/index.ts
lines 511-537): an exclusive check-and-set keyed by player id. -/
def handleDibsButton (reg : List (Nat × DibsClaim)) (playerId : Nat)
    (userId username : String) (now : Int) : List (Nat × DibsClaim) × DibsOutcome :=
  match List.lookup playerId reg with
  | some existingDibs =>
    if existingDibs.userId = userId then
      (mapDelete reg playerId, DibsOutcome.released)
    else
      (reg, DibsOutcome.rejected existingDibs.username)
  | none =>
    (mapSet reg playerId ⟨userId, username, now⟩, DibsOutcome.claimed)

/-! ### Classification lemmas -/

theorem classifyMember_tracked (cfg : MonitoringConfig) (now : Int) (tr : Tracking) (p : Player) :
    (classifyMember cfg now (some tr) p).needsUpdate = inTargetTimeRange cfg now p
  ∧ (classifyMember cfg now (some tr) p).needsDeletion = !inTargetTimeRange cfg now p
  ∧ (classifyMember cfg now (some tr) p).inTargetTimeRange = inTargetTimeRange cfg now p := by
  cases htr : tr.state <;> cases h : inTargetTimeRange cfg now p <;>
    simp [classifyMember, htr, h]

theorem classifyMember_untracked (cfg : MonitoringConfig) (now : Int) (p : Player) :
    (classifyMember cfg now none p).needsUpdate =
        (inTargetTimeRange cfg now p || (!isInHospital p && decide (p.level ≤ 100)))
  ∧ (classifyMember cfg now none p).needsDeletion = false
  ∧ (classifyMember cfg now none p).inTargetTimeRange = inTargetTimeRange cfg now p := by
  cases h : (inTargetTimeRange cfg now p || (!isInHospital p && decide (p.level ≤ 100))) <;>
    simp [classifyMember, h]

/-- C4: the monitor's classification is a pure function of the member's
status, time remaining and level; a member is in the hospital window iff
the status state is `"Hospital"` and the remaining time lies in
`(0, maxHospitalTime]`; an untracked member not in hospital is shown as
available exactly when the level threshold (level ≤ 100) admits it. -/
theorem monitor_classification_correct (cfg : MonitoringConfig) (now : Int)
    (p : Player) (t : Option Tracking) :
    (inTargetTimeRange cfg now p = true ↔
      (p.status.state = "Hospital" ∧ 0 < p.status.untilTime - now ∧
        p.status.untilTime - now ≤ cfg.maxHospitalTime))
  ∧ ((classifyMember cfg now none p).needsUpdate =
      (inTargetTimeRange cfg now p || (!isInHospital p && decide (p.level ≤ 100))))
  ∧ classifyMember cfg now t p = classifyMember cfg now t p := by
  refine ⟨?_, (classifyMember_untracked cfg now p).1, rfl⟩
  unfold inTargetTimeRange hospitalTimeLeft isInHospital
  by_cases h : p.status.state = "Hospital"
  · simp only [h, decide_True, if_true, Bool.true_and, Bool.and_eq_true, decide_eq_true_eq,
      true_and]
    omega
  · simp [h]

/-- C6: a roster-fetch failure (network error or malformed payload) aborts
the cycle: the whole monitor state — `playerMessages`, header and footer
message ids, dibs registry — is returned unchanged, no chat operation is
performed, and no message id is consumed. -/
theorem roster_fetch_failure_aborts_cycle (cfg : MonitoringConfig) (now : Int)
    (orc : ChatOracle) (s : MonitorState) (c : Nat) :
    (runMonitoringCycle cfg now orc none s c).state = s
  ∧ (runMonitoringCycle cfg now orc none s c).effects = []
  ∧ (runMonitoringCycle cfg now orc none s c).nextMsgId = c :=
  ⟨rfl, rfl, rfl⟩

/-- C8: the dibs/claim operation is an exclusive check-and-set keyed by
member id — claim when unclaimed, release when claimed by the requester,
reject (leaving the registry unchanged) when claimed by someone else — and
the dibs registry never influences which members the cycle tracks. -/
theorem dibs_exclusive_check_and_set (reg : List (Nat × DibsClaim)) (playerId : Nat)
    (userId username : String) (now : Int) (cfg : MonitoringConfig) (tnow : Int)
    (orc : ChatOracle) (fr : Option (List Player)) (s : MonitorState) (c : Nat) :
    (List.lookup playerId reg = none →
      handleDibsButton reg playerId userId username now =
        (mapSet reg playerId ⟨userId, username, now⟩, DibsOutcome.claimed))
  ∧ (∀ d, List.lookup playerId reg = some d → d.userId = userId →
      handleDibsButton reg playerId userId username now =
        (mapDelete reg playerId, DibsOutcome.released))
  ∧ (∀ d, List.lookup playerId reg = some d → d.userId ≠ userId →
      handleDibsButton reg playerId userId username now =
        (reg, DibsOutcome.rejected d.username))
  ∧ (∀ reg2,
      (runMonitoringCycle cfg tnow orc fr { s with dibsRegistry := reg2 } c).state.playerMessages =
        (runMonitoringCycle cfg tnow orc fr s c).state.playerMessages) := by
  refine ⟨?_, ?_, ?_, ?_⟩
  · intro h
    simp [handleDibsButton, h]
  · intro d hd hu
    simp [handleDibsButton, hd, hu]
  · intro d hd hu
    simp [handleDibsButton, hd, hu]
  · intro reg2
    cases fr <;> rfl

/-- Witness for C8 at a concrete registry: claiming an unclaimed target
records the claim, and a second user's claim on the same target is
rejected without changing the registry. -/
theorem dibs_exclusive_check_and_set_witness :
    List.lookup 7 ([] : List (Nat × DibsClaim)) = none
  ∧ handleDibsButton [] 7 "u1" "alice" 0 =
      ([(7, ⟨"u1", "alice", 0⟩)], DibsOutcome.claimed)
  ∧ handleDibsButton [(7, ⟨"u1", "alice", 0⟩)] 7 "u2" "bob" 5 =
      ([(7, ⟨"u1", "alice", 0⟩)], DibsOutcome.rejected "alice") := by
  refine ⟨rfl, ?_, ?_⟩
  · have h := (dibs_exclusive_check_and_set [] 7 "u1" "alice" 0 ⟨300⟩ 0
      ⟨fun _ => false, fun _ => false⟩ none ⟨[], none, none, []⟩ 0).1 (by decide)
    rw [h]
    rfl
  · have h := (dibs_exclusive_check_and_set [(7, ⟨"u1", "alice", 0⟩)] 7 "u2" "bob" 5 ⟨300⟩ 0
      ⟨fun _ => false, fun _ => false⟩ none ⟨[], none, none, []⟩ 0).2.2.1
      ⟨"u1", "alice", 0⟩ (by decide) (by decide)
    rw [h]

/-! ### Lemmas about the deletion and update passes -/

theorem lookup_eq_none_iff_keys {κ α : Type} [DecidableEq κ] (m : List (κ × α)) (k : κ) :
    List.lookup k m = none ↔ k ∉ m.map Prod.fst := by
  induction m with
  | nil => simp
  | cons e t ih =>
    obtain ⟨a, b⟩ := e
    rw [lookup_cons_ite]
    by_cases h : k = a <;> simp [h, ih]

theorem deletionFold_lookup (orc : ChatOracle) (xs : List (Player × ClassifyResult)) :
    ∀ (pm : List (Nat × Tracking)) (effs : List ChatEffect) (k : Nat),
      List.lookup k (xs.foldl (deletionStep orc) (pm, effs)).1 =
        if xs.any (fun x => x.1.id = k && x.2.needsDeletion) then none
        else List.lookup k pm := by
  induction xs with
  | nil =>
    intro pm effs k
    simp
  | cons x xs ih =>
    intro pm effs k
    rw [List.foldl_cons, List.any_cons]
    by_cases hd : x.2.needsDeletion = true
    · cases hlk : List.lookup x.1.id pm with
      | some tr =>
        have hstep : deletionStep orc (pm, effs) x =
            (mapDelete pm x.1.id,
             effs ++ [ChatEffect.deleteMsg x.1.id tr.messageId (!orc.deleteFails x.1.id)]) := by
          simp [deletionStep, hd, hlk]
        rw [hstep, ih, lookup_mapDelete]
        by_cases hk : x.1.id = k
        · subst hk
          simp [hd]
        · have h1 : (decide (x.1.id = k) && x.2.needsDeletion) = false := by simp [hk]
          rw [h1, Bool.false_or, if_neg (fun h2 : k = x.1.id => hk h2.symm)]
      | none =>
        have hstep : deletionStep orc (pm, effs) x = (pm, effs) := by
          simp [deletionStep, hd, hlk]
        rw [hstep, ih]
        by_cases hk : x.1.id = k
        · subst hk
          simp [hd, hlk]
        · have h1 : (decide (x.1.id = k) && x.2.needsDeletion) = false := by simp [hk]
          rw [h1, Bool.false_or]
    · have hstep : deletionStep orc (pm, effs) x = (pm, effs) := by
        simp [deletionStep, hd]
      rw [hstep, ih]
      have hd2 : x.2.needsDeletion = false := Bool.eq_false_iff.mpr hd
      rw [show (decide (x.1.id = k) && x.2.needsDeletion) = false from by
            rw [hd2, Bool.and_false],
          Bool.false_or]

theorem updateFold_effects_mono (orc : ChatOracle) (xs : List (Player × ClassifyResult)) :
    ∀ (acc : List (Nat × Tracking) × List ChatEffect × Nat) (e : ChatEffect),
      e ∈ acc.2.1 → e ∈ (xs.foldl (updateStep orc) acc).2.1 := by
  induction xs with
  | nil => intro acc e he; exact he
  | cons x xs ih =>
    intro acc e he
    rw [List.foldl_cons]
    apply ih
    unfold updateStep
    by_cases hu : x.2.needsUpdate = true
    · cases hlk : List.lookup x.1.id acc.1 with
      | some tr =>
        by_cases hf : orc.editFails x.1.id = true <;> simp [hu, hlk, hf, he]
      | none => simp [hu, hlk, he]
    · simp [hu, he]

theorem updateFold_lookup_notmem (orc : ChatOracle) (xs : List (Player × ClassifyResult)) :
    ∀ (acc : List (Nat × Tracking) × List ChatEffect × Nat) (k : Nat),
      (∀ x ∈ xs, x.1.id ≠ k) →
      List.lookup k (xs.foldl (updateStep orc) acc).1 = List.lookup k acc.1 := by
  induction xs with
  | nil => intro acc k _; rfl
  | cons x xs ih =>
    intro acc k h
    rw [List.foldl_cons]
    rw [ih _ k (fun y hy => h y (List.mem_cons_of_mem x hy))]
    have hxk : x.1.id ≠ k := h x (List.mem_cons_self x xs)
    unfold updateStep
    by_cases hu : x.2.needsUpdate = true
    · cases hlk : List.lookup x.1.id acc.1 with
      | some tr =>
        by_cases hf : orc.editFails x.1.id = true <;>
          simp [hu, hlk, hf, lookup_mapSet] <;>
          exact fun h2 => absurd h2.symm hxk
      | none =>
        simp [hu, hlk, lookup_mapSet] <;>
          exact fun h2 => absurd h2.symm hxk
    · simp [hu]

theorem updateFold_lookup_mem (orc : ChatOracle) (xs : List (Player × ClassifyResult)) :
    ∀ (acc : List (Nat × Tracking) × List ChatEffect × Nat) (x : Player × ClassifyResult),
      x ∈ xs → (xs.map (fun y => y.1.id)).Nodup →
      (x.2.needsUpdate = false →
        List.lookup x.1.id (xs.foldl (updateStep orc) acc).1 = List.lookup x.1.id acc.1)
    ∧ (x.2.needsUpdate = true →
        (∀ tr, List.lookup x.1.id acc.1 = some tr → orc.editFails x.1.id = false →
          List.lookup x.1.id (xs.foldl (updateStep orc) acc).1 =
            some ⟨tr.messageId, currentStateFor x.2⟩)
      ∧ (∀ tr, List.lookup x.1.id acc.1 = some tr → orc.editFails x.1.id = true →
          (∃ mid, List.lookup x.1.id (xs.foldl (updateStep orc) acc).1 =
            some ⟨mid, currentStateFor x.2⟩)
        ∧ ∃ mid, ChatEffect.createMsg x.1.id mid ∈ (xs.foldl (updateStep orc) acc).2.1)
      ∧ (List.lookup x.1.id acc.1 = none →
          ∃ mid, List.lookup x.1.id (xs.foldl (updateStep orc) acc).1 =
            some ⟨mid, currentStateFor x.2⟩)) := by
  induction xs with
  | nil => intro acc x hx; exact absurd hx (List.not_mem_nil x)
  | cons y xs ih =>
    intro acc x hx hnd
    rw [List.map_cons, List.nodup_cons] at hnd
    obtain ⟨hy_not, hnd2⟩ := hnd
    rcases List.mem_cons.mp hx with hxy | hx2
    · subst hxy
      have hxs : ∀ z ∈ xs, z.1.id ≠ x.1.id := by
        intro z hz heq
        exact hy_not (heq ▸ List.mem_map_of_mem (fun y => y.1.id) hz)
      rw [List.foldl_cons]
      have hrest := updateFold_lookup_notmem orc xs (updateStep orc acc x) x.1.id hxs
      refine ⟨?_, ?_⟩
      · intro hu
        rw [hrest]
        unfold updateStep
        simp [hu]
      · intro hu
        refine ⟨?_, ?_, ?_⟩
        · intro tr htr hf
          rw [hrest]
          unfold updateStep
          simp [hu, htr, hf, lookup_mapSet]
        · intro tr htr hf
          constructor
          · refine ⟨acc.2.2, ?_⟩
            rw [hrest]
            unfold updateStep
            simp [hu, htr, hf, lookup_mapSet]
          · refine ⟨acc.2.2, ?_⟩
            apply updateFold_effects_mono
            unfold updateStep
            simp [hu, htr, hf]
        · intro htr
          refine ⟨acc.2.2, ?_⟩
          rw [hrest]
          unfold updateStep
          simp [hu, htr, lookup_mapSet]
    · have hyx : y.1.id ≠ x.1.id := by
        intro heq
        exact hy_not (heq ▸ List.mem_map_of_mem (fun y => y.1.id) hx2)
      have hkeep : List.lookup x.1.id (updateStep orc acc y).1 = List.lookup x.1.id acc.1 := by
        unfold updateStep
        by_cases hu : y.2.needsUpdate = true
        · cases hlk : List.lookup y.1.id acc.1 with
          | some tr =>
            by_cases hf : orc.editFails y.1.id = true <;>
              simp [hu, hlk, hf, lookup_mapSet] <;>
              exact fun h2 => absurd h2.symm hyx
          | none =>
            simp [hu, hlk, lookup_mapSet] <;>
              exact fun h2 => absurd h2.symm hyx
        · simp [hu]
      rw [List.foldl_cons]
      have hmain := ih (updateStep orc acc y) x hx2 hnd2
      rw [hkeep] at hmain
      exact hmain

/-! ### Cycle-level lemmas -/

theorem runMonitoringCycle_playerMessages (cfg : MonitoringConfig) (now : Int) (orc : ChatOracle)
    (members : List Player) (s : MonitorState) (c : Nat) :
    (runMonitoringCycle cfg now orc (some members) s c).state.playerMessages =
      (updatePass orc (processedOf cfg now s members)
        (deletionPass orc (processedOf cfg now s members) s.playerMessages).1
        (headerPass s (processedOf cfg now s members) c).2.2).1 := rfl

theorem runMonitoringCycle_mem_effects_upd (cfg : MonitoringConfig) (now : Int)
    (orc : ChatOracle) (members : List Player) (s : MonitorState) (c : Nat) (e : ChatEffect)
    (he : e ∈ (updatePass orc (processedOf cfg now s members)
        (deletionPass orc (processedOf cfg now s members) s.playerMessages).1
        (headerPass s (processedOf cfg now s members) c).2.2).2.1) :
    e ∈ (runMonitoringCycle cfg now orc (some members) s c).effects := by
  refine List.mem_append_left _ (List.mem_append_left _ (List.mem_append_right _ ?_))
  exact he

theorem any_key_of_nodup (xs : List (Player × ClassifyResult))
    (hnd : (xs.map (fun y => y.1.id)).Nodup) (x : Player × ClassifyResult) (hx : x ∈ xs)
    (k : Nat) (hk : x.1.id = k) (Q : Player × ClassifyResult → Bool) :
    xs.any (fun y => y.1.id = k && Q y) = Q x := by
  subst hk
  cases hq : Q x
  · rw [List.any_eq_false]
    intro y hy
    by_cases hyk : y.1.id = x.1.id
    · have hyx : y = x := List.inj_on_of_nodup_map hnd hy hx hyk
      subst hyx
      simp [hq]
    · simp [hyk]
  · rw [List.any_eq_true]
    exact ⟨x, hx, by simp [hq]⟩

theorem processedOf_ids (cfg : MonitoringConfig) (now : Int) (s : MonitorState)
    (members : List Player) :
    (processedOf cfg now s members).map (fun y => y.1.id) = members.map Player.id := by
  unfold processedOf
  rw [List.map_map]
  rfl

/-! ### C1: the tracked-alert set after a cycle -/

/-- Concrete roster member used against C1: available (not in hospital)
and within the level policy, already tracked as `available`. -/
def c1Player : Player := ⟨1, "Alpha", 50, ⟨"Okay", 0⟩⟩

/-- Monitor state in which `c1Player` already has a live alert. -/
def c1State : MonitorState := ⟨[(1, ⟨10, TrackState.available⟩)], some 8, some 9, []⟩

/-- Oracle under which every chat operation succeeds. -/
def noFailures : ChatOracle := ⟨fun _ => false, fun _ => false⟩

/-- C1 counterexample: `c1Player` is showable in the claim's sense
(available under the level policy, not in hospital), yet the error-free
cycle deletes its tracking entry, so the set of live tracked alerts is not
the set of showable members. -/
theorem monitor_alert_set_counterexample :
    (isInHospital c1Player = false ∧ c1Player.level ≤ 100)
  ∧ List.lookup c1Player.id
      (runMonitoringCycle ⟨300⟩ 1000 noFailures (some [c1Player]) c1State 20).state.playerMessages
      = none := by
  decide

/-- C1 (amended): assuming distinct roster ids and a roster covering every
tracked id, the tracked set after a cycle is exactly: members now in the
hospital window, together with members who were untracked before the cycle
and are available under the level policy. (A member who was already
tracked and is merely available — no longer in the hospital window — is
deleted by the cycle, contrary to the original claim; its alert reappears
only on the next cycle.) Membership is independent of chat-operation
failures. -/
theorem monitor_cycle_tracked_set (cfg : MonitoringConfig) (now : Int) (orc : ChatOracle)
    (members : List Player) (s : MonitorState) (c : Nat)
    (hnd : (members.map Player.id).Nodup)
    (hcov : ∀ k ∈ s.playerMessages.map Prod.fst, k ∈ members.map Player.id) :
    ∀ k, (List.lookup k
        (runMonitoringCycle cfg now orc (some members) s c).state.playerMessages).isSome = true
      ↔ ∃ p ∈ members, p.id = k ∧
          (inTargetTimeRange cfg now p = true ∨
            (List.lookup k s.playerMessages = none ∧ isInHospital p = false ∧ p.level ≤ 100)) := by
  intro k
  rw [runMonitoringCycle_playerMessages]
  have hnd2 : ((processedOf cfg now s members).map (fun y => y.1.id)).Nodup := by
    rw [processedOf_ids]
    exact hnd
  by_cases hkmem : k ∈ members.map Player.id
  · obtain ⟨p, hp, hpk⟩ := List.mem_map.mp hkmem
    subst hpk
    have hxmem : (p, classifyMember cfg now (List.lookup p.id s.playerMessages) p) ∈
        processedOf cfg now s members :=
      List.mem_map_of_mem _ hp
    have hdel : List.lookup p.id
        (deletionPass orc (processedOf cfg now s members) s.playerMessages).1 =
        if (classifyMember cfg now (List.lookup p.id s.playerMessages) p).needsDeletion = true
        then none else List.lookup p.id s.playerMessages := by
      unfold deletionPass
      rw [deletionFold_lookup orc _ s.playerMessages [] p.id,
        any_key_of_nodup _ hnd2 _ hxmem p.id rfl (fun y => y.2.needsDeletion)]
    have hupdmem := updateFold_lookup_mem orc (processedOf cfg now s members)
      ((deletionPass orc (processedOf cfg now s members) s.playerMessages).1, [],
        (headerPass s (processedOf cfg now s members) c).2.2)
      (p, classifyMember cfg now (List.lookup p.id s.playerMessages) p) hxmem hnd2
    have hpinj : ∀ q ∈ members, q.id = p.id → q = p := by
      intro q hq hqp
      exact List.inj_on_of_nodup_map hnd hq hp hqp
    cases hlk : List.lookup p.id s.playerMessages with
    | some tr =>
      obtain ⟨hU, hD, hR⟩ := classifyMember_tracked cfg now tr p
      cases hr : inTargetTimeRange cfg now p with
      | true =>
        rw [hlk] at hdel hupdmem
        rw [hr] at hU hD
        have hdel2 : List.lookup p.id
            (deletionPass orc (processedOf cfg now s members) s.playerMessages).1 = some tr := by
          rw [hdel, hD]
          simp
        have hsome : (List.lookup p.id
            (updatePass orc (processedOf cfg now s members)
              (deletionPass orc (processedOf cfg now s members) s.playerMessages).1
              (headerPass s (processedOf cfg now s members) c).2.2).1).isSome = true := by
          unfold updatePass
          cases hf : orc.editFails p.id with
          | false =>
            rw [(hupdmem.2 hU).1 tr hdel2 hf]
            rfl
          | true =>
            obtain ⟨mid, hmid⟩ := ((hupdmem.2 hU).2.1 tr hdel2 hf).1
            rw [hmid]
            rfl
        exact iff_of_true hsome ⟨p, hp, rfl, Or.inl hr⟩
      | false =>
        rw [hlk] at hdel hupdmem
        rw [hr] at hU hD
        have hdel2 : List.lookup p.id
            (deletionPass orc (processedOf cfg now s members) s.playerMessages).1 = none := by
          rw [hdel, hD]
          simp
        have hnone : List.lookup p.id
            (updatePass orc (processedOf cfg now s members)
              (deletionPass orc (processedOf cfg now s members) s.playerMessages).1
              (headerPass s (processedOf cfg now s members) c).2.2).1 = none := by
          unfold updatePass
          rw [hupdmem.1 hU, hdel2]
        refine iff_of_false (by rw [hnone]; simp) ?_
        rintro ⟨q, hq, hqp, hdisj⟩
        have hqp2 : q = p := hpinj q hq hqp
        subst hqp2
        rcases hdisj with hin | ⟨hnone2, _, _⟩
        · rw [hr] at hin
          exact Bool.false_ne_true hin
        · exact Option.some_ne_none tr hnone2
    | none =>
      obtain ⟨hU, hD, hR⟩ := classifyMember_untracked cfg now p
      rw [hlk] at hdel hupdmem
      have hdel2 : List.lookup p.id
          (deletionPass orc (processedOf cfg now s members) s.playerMessages).1 = none := by
        rw [hdel, hD]
        simp [hlk]
      cases hb : (inTargetTimeRange cfg now p || (!isInHospital p && decide (p.level ≤ 100))) with
      | true =>
        rw [hb] at hU
        have hsome : (List.lookup p.id
            (updatePass orc (processedOf cfg now s members)
              (deletionPass orc (processedOf cfg now s members) s.playerMessages).1
              (headerPass s (processedOf cfg now s members) c).2.2).1).isSome = true := by
          unfold updatePass
          obtain ⟨mid, hmid⟩ := (hupdmem.2 hU).2.2 hdel2
          rw [hmid]
          rfl
        refine iff_of_true hsome ⟨p, hp, rfl, ?_⟩
        rcases Bool.or_eq_true_iff.mp hb with hin | havail
        · exact Or.inl hin
        · obtain ⟨hh, hl⟩ := Bool.and_eq_true_iff.mp havail
          refine Or.inr ⟨rfl, ?_, of_decide_eq_true hl⟩
          cases hhosp : isInHospital p
          · rfl
          · rw [hhosp] at hh
            exact absurd hh (by decide)
      | false =>
        rw [hb] at hU
        have hnone : List.lookup p.id
            (updatePass orc (processedOf cfg now s members)
              (deletionPass orc (processedOf cfg now s members) s.playerMessages).1
              (headerPass s (processedOf cfg now s members) c).2.2).1 = none := by
          unfold updatePass
          rw [hupdmem.1 hU, hdel2]
        refine iff_of_false (by rw [hnone]; simp) ?_
        rintro ⟨q, hq, hqp, hdisj⟩
        have hqp2 : q = p := hpinj q hq hqp
        subst hqp2
        rcases Bool.or_eq_false_iff.mp hb with ⟨hin, havail⟩
        rcases hdisj with hin2 | ⟨-, hhosp, hlvl⟩
        · rw [hin] at hin2
          exact Bool.false_ne_true hin2
        · rw [hhosp] at havail
          simp [decide_eq_true_eq] at havail
          exact absurd hlvl (by omega)
  · have hids : ∀ y ∈ processedOf cfg now s members, y.1.id ≠ k := by
      intro y hy heq
      have : y.1.id ∈ members.map Player.id := by
        rw [← processedOf_ids cfg now s members]
        exact List.mem_map_of_mem _ hy
      rw [heq] at this
      exact hkmem this
    have hnone0 : List.lookup k s.playerMessages = none := by
      rw [lookup_eq_none_iff_keys]
      intro hkk
      exact hkmem (hcov k hkk)
    have hdel2 : List.lookup k
        (deletionPass orc (processedOf cfg now s members) s.playerMessages).1 = none := by
      unfold deletionPass
      rw [deletionFold_lookup orc _ s.playerMessages [] k]
      have hany : (processedOf cfg now s members).any
          (fun y => y.1.id = k && y.2.needsDeletion) = false := by
        rw [List.any_eq_false]
        intro y hy
        simp [hids y hy]
      rw [hany]
      simp [hnone0]
    have hnone : List.lookup k
        (updatePass orc (processedOf cfg now s members)
          (deletionPass orc (processedOf cfg now s members) s.playerMessages).1
          (headerPass s (processedOf cfg now s members) c).2.2).1 = none := by
      unfold updatePass
      rw [updateFold_lookup_notmem orc _ _ k hids, hdel2]
    refine iff_of_false (by rw [hnone]; simp) ?_
    rintro ⟨q, hq, hqp, -⟩
    exact hkmem (hqp ▸ List.mem_map_of_mem Player.id hq)

/-! ### C5: isolation of per-message chat failures -/

theorem deletionFold_fst_oracle (orc1 orc2 : ChatOracle) (xs : List (Player × ClassifyResult)) :
    ∀ (pm : List (Nat × Tracking)) (effs1 effs2 : List ChatEffect),
      (xs.foldl (deletionStep orc1) (pm, effs1)).1 =
        (xs.foldl (deletionStep orc2) (pm, effs2)).1 := by
  induction xs with
  | nil => intro pm effs1 effs2; rfl
  | cons x xs ih =>
    intro pm effs1 effs2
    rw [List.foldl_cons, List.foldl_cons]
    by_cases hd : x.2.needsDeletion = true
    · cases hlk : List.lookup x.1.id pm with
      | some tr =>
        have h1 : deletionStep orc1 (pm, effs1) x =
            (mapDelete pm x.1.id,
             effs1 ++ [ChatEffect.deleteMsg x.1.id tr.messageId (!orc1.deleteFails x.1.id)]) := by
          simp [deletionStep, hd, hlk]
        have h2 : deletionStep orc2 (pm, effs2) x =
            (mapDelete pm x.1.id,
             effs2 ++ [ChatEffect.deleteMsg x.1.id tr.messageId (!orc2.deleteFails x.1.id)]) := by
          simp [deletionStep, hd, hlk]
        rw [h1, h2]
        exact ih _ _ _
      | none =>
        have h1 : deletionStep orc1 (pm, effs1) x = (pm, effs1) := by
          simp [deletionStep, hd, hlk]
        have h2 : deletionStep orc2 (pm, effs2) x = (pm, effs2) := by
          simp [deletionStep, hd, hlk]
        rw [h1, h2]
        exact ih _ _ _
    · have h1 : deletionStep orc1 (pm, effs1) x = (pm, effs1) := by simp [deletionStep, hd]
      have h2 : deletionStep orc2 (pm, effs2) x = (pm, effs2) := by simp [deletionStep, hd]
      rw [h1, h2]
      exact ih _ _ _

theorem updateFold_stateProj (orc1 orc2 : ChatOracle) (xs : List (Player × ClassifyResult)) :
    ∀ (acc1 acc2 : List (Nat × Tracking) × List ChatEffect × Nat),
      (∀ j, (List.lookup j acc1.1).map Tracking.state =
            (List.lookup j acc2.1).map Tracking.state) →
      ∀ j, (List.lookup j (xs.foldl (updateStep orc1) acc1).1).map Tracking.state =
           (List.lookup j (xs.foldl (updateStep orc2) acc2).1).map Tracking.state := by
  induction xs with
  | nil => intro acc1 acc2 h j; exact h j
  | cons x xs ih =>
    intro acc1 acc2 h j
    rw [List.foldl_cons, List.foldl_cons]
    apply ih
    intro i
    by_cases hu : x.2.needsUpdate = true
    · cases h1 : List.lookup x.1.id acc1.1 with
      | some tr1 =>
        cases h2 : List.lookup x.1.id acc2.1 with
        | some tr2 =>
          have e1 : (updateStep orc1 acc1 x).1 = mapSet acc1.1 x.1.id
              ⟨if orc1.editFails x.1.id then acc1.2.2 else tr1.messageId,
               currentStateFor x.2⟩ := by
            unfold updateStep
            by_cases hf : orc1.editFails x.1.id = true <;> simp [hu, h1, hf]
          have e2 : (updateStep orc2 acc2 x).1 = mapSet acc2.1 x.1.id
              ⟨if orc2.editFails x.1.id then acc2.2.2 else tr2.messageId,
               currentStateFor x.2⟩ := by
            unfold updateStep
            by_cases hf : orc2.editFails x.1.id = true <;> simp [hu, h2, hf]
          rw [e1, e2, lookup_mapSet, lookup_mapSet]
          by_cases hi : i = x.1.id
          · simp [hi]
          · simp only [if_neg hi]
            exact h i
        | none =>
          have hcontr := h x.1.id
          rw [h1, h2] at hcontr
          simp at hcontr
      | none =>
        cases h2 : List.lookup x.1.id acc2.1 with
        | some tr2 =>
          have hcontr := h x.1.id
          rw [h1, h2] at hcontr
          simp at hcontr
        | none =>
          have e1 : (updateStep orc1 acc1 x).1 =
              mapSet acc1.1 x.1.id ⟨acc1.2.2, currentStateFor x.2⟩ := by
            unfold updateStep
            simp [hu, h1]
          have e2 : (updateStep orc2 acc2 x).1 =
              mapSet acc2.1 x.1.id ⟨acc2.2.2, currentStateFor x.2⟩ := by
            unfold updateStep
            simp [hu, h2]
          rw [e1, e2, lookup_mapSet, lookup_mapSet]
          by_cases hi : i = x.1.id
          · simp [hi]
          · simp only [if_neg hi]
            exact h i
    · have e1 : (updateStep orc1 acc1 x).1 = acc1.1 := by
        unfold updateStep
        simp [hu]
      have e2 : (updateStep orc2 acc2 x).1 = acc2.1 := by
        unfold updateStep
        simp [hu]
      rw [e1, e2]
      exact h i

/-- C5 (amended): per-message chat failures are isolated — which member
ids end up tracked, and with which state tag, is independent of which
edits/deletes fail; a delete failure still drops the member's tracking
entry; an edit failure does NOT drop the entry for the next cycle: the
cycle immediately sends a replacement message, tracks it in place of the
failed one, and keeps the member's entry live. -/
theorem per_message_failure_isolation (cfg : MonitoringConfig) (now : Int)
    (orc orc2 : ChatOracle) (members : List Player) (s : MonitorState) (c : Nat)
    (hnd : (members.map Player.id).Nodup) :
    (∀ k, (List.lookup k
          (runMonitoringCycle cfg now orc (some members) s c).state.playerMessages).map
          Tracking.state
        = (List.lookup k
          (runMonitoringCycle cfg now orc2 (some members) s c).state.playerMessages).map
          Tracking.state)
  ∧ (∀ p ∈ members,
      (classifyMember cfg now (List.lookup p.id s.playerMessages) p).needsDeletion = true →
      List.lookup p.id
        (runMonitoringCycle cfg now orc (some members) s c).state.playerMessages = none)
  ∧ (∀ p ∈ members, ∀ tr, List.lookup p.id s.playerMessages = some tr →
      (classifyMember cfg now (List.lookup p.id s.playerMessages) p).needsUpdate = true →
      orc.editFails p.id = true →
      (∃ mid, List.lookup p.id
          (runMonitoringCycle cfg now orc (some members) s c).state.playerMessages =
        some ⟨mid, currentStateFor (classifyMember cfg now (List.lookup p.id s.playerMessages) p)⟩)
    ∧ (∃ mid, ChatEffect.createMsg p.id mid ∈
        (runMonitoringCycle cfg now orc (some members) s c).effects)) := by
  have hnd2 : ((processedOf cfg now s members).map (fun y => y.1.id)).Nodup := by
    rw [processedOf_ids]
    exact hnd
  refine ⟨?_, ?_, ?_⟩
  · intro k
    rw [runMonitoringCycle_playerMessages, runMonitoringCycle_playerMessages]
    unfold updatePass
    apply updateFold_stateProj
    intro j
    unfold deletionPass
    rw [deletionFold_fst_oracle orc orc2 (processedOf cfg now s members) s.playerMessages [] []]
  · intro p hp hD
    rw [runMonitoringCycle_playerMessages]
    have hxmem : (p, classifyMember cfg now (List.lookup p.id s.playerMessages) p) ∈
        processedOf cfg now s members := List.mem_map_of_mem _ hp
    have hdel2 : List.lookup p.id
        (deletionPass orc (processedOf cfg now s members) s.playerMessages).1 = none := by
      unfold deletionPass
      rw [deletionFold_lookup orc _ s.playerMessages [] p.id,
        any_key_of_nodup _ hnd2 _ hxmem p.id rfl (fun y => y.2.needsDeletion), hD]
      simp
    have hU : (classifyMember cfg now (List.lookup p.id s.playerMessages) p).needsUpdate =
        false := by
      cases hlk : List.lookup p.id s.playerMessages with
      | some tr =>
        rw [hlk] at hD
        rw [(classifyMember_tracked cfg now tr p).2.1] at hD
        rw [(classifyMember_tracked cfg now tr p).1]
        cases hin : inTargetTimeRange cfg now p
        · rfl
        · rw [hin] at hD
          exact absurd hD (by decide)
      | none =>
        rw [hlk] at hD
        rw [(classifyMember_untracked cfg now p).2.1] at hD
        exact absurd hD (by decide)
    have hupdmem := updateFold_lookup_mem orc (processedOf cfg now s members)
      ((deletionPass orc (processedOf cfg now s members) s.playerMessages).1, [],
        (headerPass s (processedOf cfg now s members) c).2.2) _ hxmem hnd2
    unfold updatePass
    rw [hupdmem.1 hU]
    exact hdel2
  · intro p hp tr hlk hU hf
    have hxmem : (p, classifyMember cfg now (List.lookup p.id s.playerMessages) p) ∈
        processedOf cfg now s members := List.mem_map_of_mem _ hp
    have hU2 : inTargetTimeRange cfg now p = true := by
      rw [hlk] at hU
      rw [(classifyMember_tracked cfg now tr p).1] at hU
      exact hU
    have hD : (classifyMember cfg now (List.lookup p.id s.playerMessages) p).needsDeletion =
        false := by
      rw [hlk, (classifyMember_tracked cfg now tr p).2.1, hU2]
      rfl
    have hdel2 : List.lookup p.id
        (deletionPass orc (processedOf cfg now s members) s.playerMessages).1 = some tr := by
      unfold deletionPass
      rw [deletionFold_lookup orc _ s.playerMessages [] p.id,
        any_key_of_nodup _ hnd2 _ hxmem p.id rfl (fun y => y.2.needsDeletion), hD]
      simp [hlk]
    have hupdmem := updateFold_lookup_mem orc (processedOf cfg now s members)
      ((deletionPass orc (processedOf cfg now s members) s.playerMessages).1, [],
        (headerPass s (processedOf cfg now s members) c).2.2) _ hxmem hnd2
    have hU3 : (classifyMember cfg now (List.lookup p.id s.playerMessages) p).needsUpdate =
        true := by
      rw [hlk, (classifyMember_tracked cfg now tr p).1]
      exact hU2
    have hres := (hupdmem.2 hU3).2.1 tr hdel2 hf
    constructor
    · rw [runMonitoringCycle_playerMessages]
      unfold updatePass
      exact hres.1
    · obtain ⟨mid, hmid⟩ := hres.2
      exact ⟨mid, runMonitoringCycle_mem_effects_upd cfg now orc members s c _ hmid⟩

/-- Concrete member whose alert edit fails: in the hospital window,
tracked. -/
def c5Player : Player := ⟨1, "Bravo", 40, ⟨"Hospital", 1200⟩⟩

/-- Monitor state tracking `c5Player`. -/
def c5State : MonitorState := ⟨[(1, ⟨10, TrackState.hospital⟩)], some 8, some 9, []⟩

/-- Oracle under which the edit of member 1's message fails. -/
def editFailOracle : ChatOracle := ⟨fun i => i = 1, fun _ => false⟩

/-- C5 counterexample: with the edit of member 1's alert failing, the
tracking entry is NOT cleared (the original claim says it is cleared so
the alert is recreated on the next cycle); instead a replacement message
is created within the same cycle. -/
theorem per_message_failure_counterexample :
    editFailOracle.editFails 1 = true
  ∧ (List.lookup 1
      (runMonitoringCycle ⟨300⟩ 1000 editFailOracle (some [c5Player]) c5State 20).state.playerMessages).isSome
      = true
  ∧ ChatEffect.createMsg 1 20 ∈
      (runMonitoringCycle ⟨300⟩ 1000 editFailOracle (some [c5Player]) c5State 20).effects := by
  decide

/-- Witness for C5 at a concrete cycle: all hypotheses hold and the
failed edit leaves the member tracked with a same-cycle replacement
message. -/
theorem per_message_failure_isolation_witness :
    ([c5Player].map Player.id).Nodup
  ∧ ((∃ mid, List.lookup c5Player.id
        (runMonitoringCycle ⟨300⟩ 1000 editFailOracle (some [c5Player]) c5State 20).state.playerMessages =
        some ⟨mid, currentStateFor
          (classifyMember ⟨300⟩ 1000 (List.lookup c5Player.id c5State.playerMessages) c5Player)⟩)
    ∧ (∃ mid, ChatEffect.createMsg c5Player.id mid ∈
        (runMonitoringCycle ⟨300⟩ 1000 editFailOracle (some [c5Player]) c5State 20).effects)) :=
  ⟨by decide,
    (per_message_failure_isolation ⟨300⟩ 1000 editFailOracle noFailures [c5Player] c5State 20
      (by decide)).2.2 c5Player (by decide) ⟨10, TrackState.hospital⟩ (by decide) (by decide)
      (by decide)⟩

/-- Witness for C1 (amended) at a concrete two-member roster: one member
in the hospital window (already tracked), one untracked available member. -/
def c1wPlayer1 : Player := ⟨1, "Hosp", 30, ⟨"Hospital", 1150⟩⟩

/-- Untracked available member for the C1 witness. -/
def c1wPlayer2 : Player := ⟨2, "Avail", 60, ⟨"Okay", 0⟩⟩

/-- Monitor state for the C1 witness. -/
def c1wState : MonitorState := ⟨[(1, ⟨10, TrackState.hospital⟩)], some 8, some 9, []⟩

/-- Witness for C1 (amended): hypotheses hold at the concrete inputs and
the amended tracked-set characterisation follows. -/
theorem monitor_cycle_tracked_set_witness :
    (([c1wPlayer1, c1wPlayer2].map Player.id).Nodup
  ∧ (∀ k ∈ c1wState.playerMessages.map Prod.fst, k ∈ [c1wPlayer1, c1wPlayer2].map Player.id))
  ∧ ∀ k, (List.lookup k (runMonitoringCycle ⟨300⟩ 1000 noFailures
        (some [c1wPlayer1, c1wPlayer2]) c1wState 20).state.playerMessages).isSome = true
      ↔ ∃ p ∈ [c1wPlayer1, c1wPlayer2], p.id = k ∧
          (inTargetTimeRange ⟨300⟩ 1000 p = true ∨
            (List.lookup k c1wState.playerMessages = none ∧ isInHospital p = false ∧
              p.level ≤ 100)) :=
  ⟨⟨by decide, by decide⟩,
    monitor_cycle_tracked_set ⟨300⟩ 1000 noFailures [c1wPlayer1, c1wPlayer2] c1wState 20
      (by decide) (by decide)⟩

/-! ### Payment reconciliation (src/warReports/warReportUtils.ts) -/

/-- Parse outcome of the transaction-template regex
`(.+?) increased (.+?)'s(?: Fatality)? money balance by \$([\d,]+) from`:
admin name, recipient text, and the numeric value of the digit group. -/
structure ParsedIncrease where
  admin : String
  recipient : String
  amount : Nat
  deriving Repr, DecidableEq

/-- One faction-news entry: the regex parse outcome of its `text` field
(`none` models a text the template regex does not match) plus timestamp. -/
structure PaymentNews where
  text : Option ParsedIncrease
  timestamp : Int
  deriving Repr, DecidableEq

/-- The fields of `WarReportEntry` (warReportTypes.ts) read by payment
verification and by the payout CSV machinery; `id` and `name` are the
optional fields derived from the bracketed id in `Member`. -/
structure WarReportEntry where
  Member : String
  id : Option String
  name : Option String
  War_hits : String
  Assists : String
  Under_Respect_Hits : String
  Non_War_Hits : String
  Points : String
  Total_Payout : String
  deriving Repr, DecidableEq

/-- Verification record stored per entry id. -/
structure PaymentVerification where
  verified : Bool
  verifiedBy : Option String
  timestamp : Option Int
  deriving Repr, DecidableEq

/-- One matching transaction (admin and timestamp), as collected by the
verification loop. -/
structure MatchedPayment where
  admin : String
  timestamp : Int
  deriving Repr, DecidableEq

/-- Double-payment record: verification data plus match count and the full
list of matches. -/
structure PaymentVerificationWithCount where
  verified : Bool
  verifiedBy : Option String
  timestamp : Option Int
  count : Nat
  allPayments : List MatchedPayment
  deriving Repr, DecidableEq

/-- Name test of `verifyPaymentsWithDoubleCheck`: case-insensitive
substring containment in either direction. -/
def namesMatch (memberName recipient : String) : Bool :=
  jsIncludes (jsLower recipient) (jsLower memberName) ||
  jsIncludes (jsLower memberName) (jsLower recipient)

/-- The matching transactions collected for one expected payout: parsed
texts whose recipient name matches and whose amount equals the expected
amount exactly. -/
def matchingPayments (entryName : String) (paymentAmount : Int)
    (paymentData : List PaymentNews) : List MatchedPayment :=
  paymentData.filterMap (fun payment =>
    match payment.text with
    | some inc =>
      if namesMatch entryName inc.recipient && (inc.amount : Int) == paymentAmount then
        some ⟨inc.admin, payment.timestamp⟩
      else none
    | none => none)

/-- Per-entry body of the loop in `verifyPaymentsWithDoubleCheck`: `none`
when the entry is skipped (missing/empty id or name, or
non-positive/unparseable amount); otherwise the verification record and
the optional double-payment record. The source sorts the matches by
timestamp descending with a stable comparator sort, modelled by a stable
insertion sort. -/
def processEntry (entry : WarReportEntry) (paymentData : List PaymentNews) :
    Option (PaymentVerification × Option PaymentVerificationWithCount) :=
  if !(jsTruthyStr entry.id && jsTruthyStr entry.name) then none
  else
    match parseIntJS (stripCommas entry.Total_Payout) with
    | none => none
    | some paymentAmount =>
      if paymentAmount ≤ 0 then none
      else
        match (matchingPayments (entry.name.getD "") paymentAmount paymentData).insertionSort
            (fun a b => b.timestamp ≤ a.timestamp) with
        | [] => some (⟨false, none, none⟩, none)
        | mostRecent :: rest =>
          some (⟨true, some mostRecent.admin, some mostRecent.timestamp⟩,
            if 1 < (mostRecent :: rest).length then
              some ⟨true, some mostRecent.admin, some mostRecent.timestamp,
                (mostRecent :: rest).length, mostRecent :: rest⟩
            else none)

/-- Embedding of `verifyPaymentsWithDoubleCheck` (warReportUtils.ts
128-209): fold the per-entry results into the two result maps keyed by the
entry id. -/
def verifyPaymentsWithDoubleCheck (entries : List WarReportEntry)
    (paymentData : List PaymentNews) :
    List (String × PaymentVerification) × List (String × PaymentVerificationWithCount) :=
  entries.foldl (fun acc entry =>
    match processEntry entry paymentData with
    | none => acc
    | some (v, dbl) =>
      (mapSet acc.1 (entry.id.getD "") v,
       match dbl with
       | some d => mapSet acc.2 (entry.id.getD "") d
       | none => acc.2)) ([], [])

theorem jsIncludes_iff (hay needle : List Char) :
    jsIncludes hay needle = true ↔ needle <:+: hay := by
  induction hay with
  | nil => simp [jsIncludes, List.isEmpty_iff]
  | cons c t ih =>
    simp only [jsIncludes, Bool.or_eq_true, ih, List.isPrefixOf_iff_prefix,
      List.infix_cons_iff]

theorem namesMatch_iff (a b : String) :
    namesMatch a b = true ↔ (jsLower a <:+: jsLower b ∨ jsLower b <:+: jsLower a) := by
  unfold namesMatch
  rw [Bool.or_eq_true, jsIncludes_iff, jsIncludes_iff]

theorem mem_matchingPayments (n : String) (X : Int) (pd : List PaymentNews)
    (admin : String) (ts : Int) :
    (⟨admin, ts⟩ : MatchedPayment) ∈ matchingPayments n X pd ↔
      ∃ pn ∈ pd, ∃ inc, pn.text = some inc ∧ pn.timestamp = ts ∧ inc.admin = admin ∧
        (inc.amount : Int) = X ∧ namesMatch n inc.recipient = true := by
  unfold matchingPayments
  rw [List.mem_filterMap]
  constructor
  · rintro ⟨pn, hpn, hf⟩
    cases htext : pn.text with
    | none =>
      rw [htext] at hf
      exact absurd hf (by simp)
    | some inc =>
      rw [htext] at hf
      have hf2 : (if (namesMatch n inc.recipient && (inc.amount : Int) == X) = true then
          some (⟨inc.admin, pn.timestamp⟩ : MatchedPayment) else none) = some ⟨admin, ts⟩ := hf
      by_cases hcond : (namesMatch n inc.recipient && (inc.amount : Int) == X) = true
      · rw [if_pos hcond] at hf2
        rw [Option.some_inj, MatchedPayment.mk.injEq] at hf2
        obtain ⟨ha, hts⟩ := hf2
        obtain ⟨hnm, hbeq⟩ := Bool.and_eq_true_iff.mp hcond
        exact ⟨pn, hpn, inc, htext, hts, ha, beq_iff_eq.mp hbeq, hnm⟩
      · rw [if_neg hcond] at hf2
        exact absurd hf2 (by simp)
  · rintro ⟨pn, hpn, inc, htext, hts, ha, hamt, hnm⟩
    refine ⟨pn, hpn, ?_⟩
    rw [htext]
    show (if (namesMatch n inc.recipient && (inc.amount : Int) == X) = true then
        some (⟨inc.admin, pn.timestamp⟩ : MatchedPayment) else none) = some ⟨admin, ts⟩
    rw [if_pos (by rw [hnm, Bool.true_and]; exact beq_iff_eq.mpr hamt), ha, hts]

/-- C2: for an expected payout entry with (truthy) id and name and a
positive exactly-parsed integer amount X, a parsed transaction matches iff
its amount equals X exactly (no tolerance) and the recipient name is a
case-insensitive substring of the expected name or vice versa. Zero
matches mark the entry unverified; one or more matches mark it verified
with the admin/timestamp of a most recent match (timestamp-descending
sort); more than one match additionally yields a double-payment record
carrying the match count and the full list of matches. -/
theorem payment_matching_exact_and_double (entry : WarReportEntry)
    (paymentData : List PaymentNews) (i n : String) (X : Int)
    (hid : entry.id = some i) (hi : i ≠ "")
    (hname : entry.name = some n) (hn : n ≠ "")
    (hamt : parseIntJS (stripCommas entry.Total_Payout) = some X) (hX : 0 < X) :
    (∀ admin ts,
      (⟨admin, ts⟩ : MatchedPayment) ∈ matchingPayments n X paymentData ↔
        ∃ pn ∈ paymentData, ∃ inc, pn.text = some inc ∧ pn.timestamp = ts ∧
          inc.admin = admin ∧ (inc.amount : Int) = X ∧
          (jsLower n <:+: jsLower inc.recipient ∨ jsLower inc.recipient <:+: jsLower n))
  ∧ (matchingPayments n X paymentData = [] →
      processEntry entry paymentData = some (⟨false, none, none⟩, none))
  ∧ (matchingPayments n X paymentData ≠ [] →
      ∃ m ∈ matchingPayments n X paymentData,
        (∀ m2 ∈ matchingPayments n X paymentData, m2.timestamp ≤ m.timestamp)
      ∧ ∃ dbl, processEntry entry paymentData =
            some (⟨true, some m.admin, some m.timestamp⟩, dbl)
        ∧ ((matchingPayments n X paymentData).length ≤ 1 → dbl = none)
        ∧ (1 < (matchingPayments n X paymentData).length →
            ∃ d, dbl = some d ∧ d.count = (matchingPayments n X paymentData).length ∧
              d.allPayments.Perm (matchingPayments n X paymentData) ∧
              d.verifiedBy = some m.admin ∧ d.timestamp = some m.timestamp)) := by
  have htruthy : (jsTruthyStr entry.id && jsTruthyStr entry.name) = true := by
    rw [hid, hname]
    simp [jsTruthyStr, hi, hn]
  have hpe : processEntry entry paymentData =
      match (matchingPayments n X paymentData).insertionSort
          (fun a b => b.timestamp ≤ a.timestamp) with
      | [] => some (⟨false, none, none⟩, none)
      | mostRecent :: rest =>
        some (⟨true, some mostRecent.admin, some mostRecent.timestamp⟩,
          if 1 < (mostRecent :: rest).length then
            some ⟨true, some mostRecent.admin, some mostRecent.timestamp,
              (mostRecent :: rest).length, mostRecent :: rest⟩
          else none) := by
    unfold processEntry
    rw [htruthy, hamt, hname]
    dsimp only
    rw [if_neg (by omega : ¬X ≤ 0)]
    simp only [Bool.not_true, Option.getD_some]
    rw [if_neg Bool.false_ne_true]
  refine ⟨?_, ?_, ?_⟩
  · intro admin ts
    rw [mem_matchingPayments]
    constructor
    · rintro ⟨pn, hpn, inc, h1, h2, h3, h4, h5⟩
      exact ⟨pn, hpn, inc, h1, h2, h3, h4, (namesMatch_iff n inc.recipient).mp h5⟩
    · rintro ⟨pn, hpn, inc, h1, h2, h3, h4, h5⟩
      exact ⟨pn, hpn, inc, h1, h2, h3, h4, (namesMatch_iff n inc.recipient).mpr h5⟩
  · intro hm
    rw [hpe, hm]
    rfl
  · intro hne
    haveI hTot : IsTotal MatchedPayment (fun a b => b.timestamp ≤ a.timestamp) :=
      ⟨fun a b => le_total b.timestamp a.timestamp⟩
    haveI hTrans : IsTrans MatchedPayment (fun a b => b.timestamp ≤ a.timestamp) :=
      ⟨fun a b c hab hbc => le_trans hbc hab⟩
    have hperm : ((matchingPayments n X paymentData).insertionSort
        (fun a b => b.timestamp ≤ a.timestamp)).Perm (matchingPayments n X paymentData) :=
      List.perm_insertionSort _ _
    cases hs : (matchingPayments n X paymentData).insertionSort
        (fun a b => b.timestamp ≤ a.timestamp) with
    | nil =>
      rw [hs] at hperm
      exact absurd (List.perm_nil.mp hperm.symm) hne
    | cons m rest =>
      rw [hs] at hperm
      have hsorted2 : List.Sorted (fun a b : MatchedPayment => b.timestamp ≤ a.timestamp)
          (m :: rest) := by
        rw [← hs]
        exact List.sorted_insertionSort _ _
      have hmax : ∀ m2 ∈ (m :: rest), m2.timestamp ≤ m.timestamp := by
        intro m2 hm2
        rcases List.mem_cons.mp hm2 with h | h
        · rw [h]
        · exact List.rel_of_sorted_cons hsorted2 m2 h
      have hmem : m ∈ matchingPayments n X paymentData :=
        hperm.subset (List.mem_cons_self m rest)
      refine ⟨m, hmem, ?_, ?_⟩
      · intro m2 hm2
        exact hmax m2 (hperm.symm.subset hm2)
      · refine ⟨if 1 < (m :: rest).length then
            some ⟨true, some m.admin, some m.timestamp, (m :: rest).length, m :: rest⟩
          else none, ?_, ?_, ?_⟩
        · rw [hpe, hs]
        · intro hlen
          rw [if_neg]
          rw [hperm.length_eq]
          omega
        · intro hlen
          rw [if_pos]
          · exact ⟨_, rfl, hperm.length_eq, hperm, rfl, rfl⟩
          · rw [hperm.length_eq]
            omega

/-- Concrete expected-payout entry for the C2 witness. -/
def c2Entry : WarReportEntry :=
  ⟨"John [123]", some "123", some "John", "5", "1", "0", "0", "10", "1,000"⟩

/-- Concrete transaction feed for the C2 witness: two exact-amount payments
to the same recipient by different admins. -/
def c2Feed : List PaymentNews :=
  [⟨some ⟨"Alpha", "John [123]", 1000⟩, 100⟩,
   ⟨some ⟨"Beta", "John [123]", 1000⟩, 200⟩]

/-- Witness for C2: all hypotheses hold at the concrete entry/feed, and
the matching/most-recent/double-payment characterisation follows. -/
theorem payment_matching_exact_and_double_witness :
    (c2Entry.id = some "123" ∧ ("123" : String) ≠ "" ∧ c2Entry.name = some "John" ∧
      ("John" : String) ≠ "" ∧
      parseIntJS (stripCommas c2Entry.Total_Payout) = some 1000 ∧ (0 : Int) < 1000)
  ∧ ((∀ admin ts,
      (⟨admin, ts⟩ : MatchedPayment) ∈ matchingPayments "John" 1000 c2Feed ↔
        ∃ pn ∈ c2Feed, ∃ inc, pn.text = some inc ∧ pn.timestamp = ts ∧
          inc.admin = admin ∧ (inc.amount : Int) = 1000 ∧
          (jsLower "John" <:+: jsLower inc.recipient ∨
            jsLower inc.recipient <:+: jsLower "John"))
  ∧ (matchingPayments "John" 1000 c2Feed = [] →
      processEntry c2Entry c2Feed = some (⟨false, none, none⟩, none))
  ∧ (matchingPayments "John" 1000 c2Feed ≠ [] →
      ∃ m ∈ matchingPayments "John" 1000 c2Feed,
        (∀ m2 ∈ matchingPayments "John" 1000 c2Feed, m2.timestamp ≤ m.timestamp)
      ∧ ∃ dbl, processEntry c2Entry c2Feed =
            some (⟨true, some m.admin, some m.timestamp⟩, dbl)
        ∧ ((matchingPayments "John" 1000 c2Feed).length ≤ 1 → dbl = none)
        ∧ (1 < (matchingPayments "John" 1000 c2Feed).length →
            ∃ d, dbl = some d ∧ d.count = (matchingPayments "John" 1000 c2Feed).length ∧
              d.allPayments.Perm (matchingPayments "John" 1000 c2Feed) ∧
              d.verifiedBy = some m.admin ∧ d.timestamp = some m.timestamp))) :=
  ⟨⟨rfl, by decide, rfl, by decide, by decide, by decide⟩,
    payment_matching_exact_and_double c2Entry c2Feed "123" "John" 1000 rfl (by decide) rfl
      (by decide) (by decide) (by decide)⟩

/-! ### RW payout computation (src/warReports/rwPayoutCommand.ts) -/

/-- Per-member raw contribution counters as read from the war
contributions table. -/
structure MemberContribution where
  member_id : Int
  member_name : String
  war_hits : Nat
  under_respect_hits : Nat
  non_war_hits : Nat
  assists : Nat
  deriving Repr, DecidableEq

/-- Configured payout weights (payment-config table; code defaults are
hit 0, rw-hit 0.8, assist 0.2, payout 90). JavaScript float arithmetic is
modelled exactly over `ℚ`. -/
structure PayoutConfig where
  hit_multiplier : ℚ
  rw_hit_multiplier : ℚ
  assist_multiplier : ℚ
  payout_percentage : ℚ
  deriving Repr, DecidableEq

/-- `memberPoints`: the fixed linear combination of the raw counters. -/
def memberPoints (cfg : PayoutConfig) (m : MemberContribution) : ℚ :=
  m.war_hits * cfg.rw_hit_multiplier + m.under_respect_hits * cfg.hit_multiplier +
    m.non_war_hits * cfg.hit_multiplier + m.assists * cfg.assist_multiplier

/-- `totalPoints`: sum of all members' points. -/
def totalPoints (cfg : PayoutConfig) (ms : List MemberContribution) : ℚ :=
  (ms.map (memberPoints cfg)).sum

/-- `totalPayout = totalRwCash * (payoutPercentage / 100)`. -/
def totalPayoutAmount (cfg : PayoutConfig) (totalRwCash : ℚ) : ℚ :=
  totalRwCash * (cfg.payout_percentage / 100)

/-- `paymentPerPoint = totalPoints > 0 ? totalPayout / totalPoints : 0`. -/
def paymentPerPoint (cfg : PayoutConfig) (totalRwCash : ℚ)
    (ms : List MemberContribution) : ℚ :=
  if 0 < totalPoints cfg ms then totalPayoutAmount cfg totalRwCash / totalPoints cfg ms
  else 0

/-- `Math.round` on exact rationals: nearest integer, ties towards +∞. -/
def jsRound (q : ℚ) : ℤ :=
  ⌊q + 1 / 2⌋

/-- One generated payout-ledger entry; the numeric fields are kept exact
(the source stringifies them into a `WarReportEntry`). -/
structure PayoutEntry where
  member_id : Int
  Member : String
  war_hits : Nat
  under_respect_hits : Nat
  non_war_hits : Nat
  assists : Nat
  points : ℚ
  payment : ℤ
  deriving Repr, DecidableEq

/-- The ledger entry generated for one member:
`payment = Math.round(memberPoints * paymentPerPoint)`. -/
def payoutEntryOf (cfg : PayoutConfig) (totalRwCash : ℚ) (ms : List MemberContribution)
    (m : MemberContribution) : PayoutEntry :=
  ⟨m.member_id, m.member_name, m.war_hits, m.under_respect_hits, m.non_war_hits, m.assists,
   memberPoints cfg m, jsRound (memberPoints cfg m * paymentPerPoint cfg totalRwCash ms)⟩

/-- The generated ledger (rwPayoutCommand.ts 186-220): entry per member,
entries with non-positive payment dropped
(`parseFloat(entry.Total_Payout) > 0` on the stringified integer), sorted
by payment descending with a stable comparator sort (modelled by a stable
insertion sort). -/
def payoutEntries (cfg : PayoutConfig) (totalRwCash : ℚ)
    (ms : List MemberContribution) : List PayoutEntry :=
  ((ms.map (payoutEntryOf cfg totalRwCash ms)).filter
      (fun e => 0 < e.payment)).insertionSort (fun a b => b.payment ≤ a.payment)

/-- C3: points are the configured linear combination; pool payout is
cash × fraction; the rate divides payout by total points; each member's
payment is round(points × rate); non-positive payments are excluded from
the ledger; and the computation is deterministic and independent of member
iteration order (permuted contributions give a permuted ledger). -/
theorem rw_payout_computation (cfg : PayoutConfig) (cash : ℚ)
    (ms : List MemberContribution) (hpos : 0 < totalPoints cfg ms) :
    (∀ m, memberPoints cfg m =
      m.war_hits * cfg.rw_hit_multiplier + m.under_respect_hits * cfg.hit_multiplier +
        m.non_war_hits * cfg.hit_multiplier + m.assists * cfg.assist_multiplier)
  ∧ totalPayoutAmount cfg cash = cash * (cfg.payout_percentage / 100)
  ∧ paymentPerPoint cfg cash ms = totalPayoutAmount cfg cash / totalPoints cfg ms
  ∧ (∀ m, (payoutEntryOf cfg cash ms m).payment =
      ⌊memberPoints cfg m * (totalPayoutAmount cfg cash / totalPoints cfg ms) + 1 / 2⌋)
  ∧ (payoutEntries cfg cash ms).Perm
      ((ms.map (payoutEntryOf cfg cash ms)).filter (fun e => 0 < e.payment))
  ∧ (∀ e ∈ payoutEntries cfg cash ms, (∃ m ∈ ms, e = payoutEntryOf cfg cash ms m) ∧
      0 < e.payment)
  ∧ (∀ m ∈ ms, 0 < (payoutEntryOf cfg cash ms m).payment →
      payoutEntryOf cfg cash ms m ∈ payoutEntries cfg cash ms)
  ∧ (∀ e : PayoutEntry, e.payment = 0 → e ∉ payoutEntries cfg cash ms)
  ∧ (∀ ms2, ms.Perm ms2 →
      (payoutEntries cfg cash ms).Perm (payoutEntries cfg cash ms2)) := by
  have hrate : paymentPerPoint cfg cash ms = totalPayoutAmount cfg cash / totalPoints cfg ms := by
    unfold paymentPerPoint
    rw [if_pos hpos]
  refine ⟨fun m => rfl, rfl, hrate, ?_, List.perm_insertionSort _ _, ?_, ?_, ?_, ?_⟩
  · intro m
    show jsRound (memberPoints cfg m * paymentPerPoint cfg cash ms) = _
    rw [hrate]
    rfl
  · intro e he
    have he2 : e ∈ (ms.map (payoutEntryOf cfg cash ms)).filter (fun e => 0 < e.payment) :=
      (List.perm_insertionSort _ _).subset he
    obtain ⟨hemem, hep⟩ := List.mem_filter.mp he2
    obtain ⟨m, hm, hem⟩ := List.mem_map.mp hemem
    exact ⟨⟨m, hm, hem.symm⟩, of_decide_eq_true hep⟩
  · intro m hm hp
    apply (List.perm_insertionSort _ _).symm.subset
    exact List.mem_filter.mpr ⟨List.mem_map_of_mem _ hm, decide_eq_true hp⟩
  · intro e hpay he
    have he2 : e ∈ (ms.map (payoutEntryOf cfg cash ms)).filter (fun e => 0 < e.payment) :=
      (List.perm_insertionSort _ _).subset he
    have := of_decide_eq_true (List.mem_filter.mp he2).2
    omega
  · intro ms2 hperm2
    have htp : totalPoints cfg ms = totalPoints cfg ms2 :=
      (hperm2.map (memberPoints cfg)).sum_eq
    have hpp : paymentPerPoint cfg cash ms = paymentPerPoint cfg cash ms2 := by
      unfold paymentPerPoint
      rw [htp]
    have hfun : payoutEntryOf cfg cash ms = payoutEntryOf cfg cash ms2 := by
      funext m
      unfold payoutEntryOf
      rw [hpp]
    have h1 : (payoutEntries cfg cash ms).Perm
        ((ms.map (payoutEntryOf cfg cash ms)).filter (fun e => 0 < e.payment)) :=
      List.perm_insertionSort _ _
    have h2 : ((ms.map (payoutEntryOf cfg cash ms)).filter (fun e => 0 < e.payment)).Perm
        ((ms2.map (payoutEntryOf cfg cash ms2)).filter (fun e => 0 < e.payment)) := by
      rw [hfun]
      exact (hperm2.map _).filter _
    have h3 : ((ms2.map (payoutEntryOf cfg cash ms2)).filter (fun e => 0 < e.payment)).Perm
        (payoutEntries cfg cash ms2) := (List.perm_insertionSort _ _).symm
    exact (h1.trans h2).trans h3

/-- First contribution (10 points under unit rw-hit weight) for the C3
witness. -/
def c3m1 : MemberContribution := ⟨1, "A", 10, 0, 0, 0⟩

/-- Second contribution (20 points) for the C3 witness. -/
def c3m2 : MemberContribution := ⟨2, "B", 20, 0, 0, 0⟩

/-- Third contribution (30 points) for the C3 witness. -/
def c3m3 : MemberContribution := ⟨3, "C", 30, 0, 0, 0⟩

/-- Contribution list for the C3 witness. -/
def c3ms : List MemberContribution := [c3m1, c3m2, c3m3]

/-- Weights for the C3 witness: unit rw-hit weight, 100% payout. -/
def c3cfg : PayoutConfig := ⟨0, 1, 0, 100⟩

/-- Witness for C3: with member points [10, 20, 30], pool 600 and 100%
payout fraction, the rate is 10/point and the payments are 100, 200, 300
(ledger sorted by payment descending). -/
theorem rw_payout_computation_witness :
    0 < totalPoints c3cfg c3ms
  ∧ paymentPerPoint c3cfg 600 c3ms = totalPayoutAmount c3cfg 600 / totalPoints c3cfg c3ms
  ∧ (payoutEntries c3cfg 600 c3ms).map (fun e => (e.member_id, e.payment)) =
      [(3, 300), (2, 200), (1, 100)] := by
  have htp : totalPoints c3cfg c3ms = 60 := by
    norm_num [totalPoints, memberPoints, c3ms, c3m1, c3m2, c3m3, c3cfg]
  have hpp : paymentPerPoint c3cfg 600 c3ms = 10 := by
    unfold paymentPerPoint
    rw [if_pos (by rw [htp]; norm_num), htp]
    norm_num [totalPayoutAmount, c3cfg]
  have hpay1 : payoutEntryOf c3cfg 600 c3ms c3m1 = ⟨1, "A", 10, 0, 0, 0, 10, 100⟩ := by
    unfold payoutEntryOf
    rw [hpp]
    norm_num [memberPoints, c3m1, c3cfg, jsRound, Int.floor_eq_iff]
  have hpay2 : payoutEntryOf c3cfg 600 c3ms c3m2 = ⟨2, "B", 20, 0, 0, 0, 20, 200⟩ := by
    unfold payoutEntryOf
    rw [hpp]
    norm_num [memberPoints, c3m2, c3cfg, jsRound, Int.floor_eq_iff]
  have hpay3 : payoutEntryOf c3cfg 600 c3ms c3m3 = ⟨3, "C", 30, 0, 0, 0, 30, 300⟩ := by
    unfold payoutEntryOf
    rw [hpp]
    norm_num [memberPoints, c3m3, c3cfg, jsRound, Int.floor_eq_iff]
  have hmap : c3ms.map (payoutEntryOf c3cfg 600 c3ms) =
      [⟨1, "A", 10, 0, 0, 0, 10, 100⟩, ⟨2, "B", 20, 0, 0, 0, 20, 200⟩,
       ⟨3, "C", 30, 0, 0, 0, 30, 300⟩] := by
    show [payoutEntryOf c3cfg 600 c3ms c3m1, payoutEntryOf c3cfg 600 c3ms c3m2,
      payoutEntryOf c3cfg 600 c3ms c3m3] = _
    rw [hpay1, hpay2, hpay3]
  refine ⟨by rw [htp]; norm_num,
    (rw_payout_computation c3cfg 600 c3ms (by rw [htp]; norm_num)).2.2.1, ?_⟩
  unfold payoutEntries
  rw [hmap]
  decide

/-! ### Aggregate verify-all duplicate check (src/warReport.ts 542-630)

The `!verifyAll` path groups the raw faction-news feed instead of matching
it against a payout ledger: the first loop groups parsed transactions by
recipient key (bracketed id or the literal `"unknown"`), the second groups
each recipient's payments by amount, counting occurrences and collecting
the admins involved, and every amount group seen more than once is flagged
as a suspected duplicate. -/

/-- One payment pushed into a recipient group (warReport.ts 586-590):
amount, paying admin, and news timestamp. -/
structure PayRecord where
  amount : Nat
  admin : String
  timestamp : Int
  deriving Repr, DecidableEq

/-- Value of the `paymentsByRecipient` map: display name, key id, and the
payments recorded for that recipient in feed order. -/
structure RecipientGroup where
  name : String
  id : String
  payments : List PayRecord
  deriving Repr, DecidableEq

/-- Grouping key of the verify-all scan (warReport.ts 575-576): the first
bracketed numeric id in the recipient text, or the shared literal
`"unknown"` when there is none. -/
def recipientKey (inc : ParsedIncrease) : String :=
  (extractBracketId inc.recipient).getD "unknown"

/-- Display name stored on group creation (warReport.ts 577): the text
before the bracket when an id is present, the raw recipient text
otherwise. -/
def recipientName (inc : ParsedIncrease) : String :=
  match extractBracketId inc.recipient with
  | some _ => nameBeforeBracket inc.recipient
  | none => inc.recipient

/-- `if (!paymentsByRecipient.has(id)) paymentsByRecipient.set(id, {name,
id, payments: []})` (warReport.ts 581-587). -/
def ensureRecipient (acc : List (String × RecipientGroup)) (inc : ParsedIncrease) :
    List (String × RecipientGroup) :=
  if (List.lookup (recipientKey inc) acc).isSome then acc
  else mapSet acc (recipientKey inc) ⟨recipientName inc, recipientKey inc, []⟩

/-- `paymentsByRecipient.get(id)?.payments.push({amount, admin,
timestamp})` (warReport.ts 589-593), as a functional update. -/
def bumpGroup (inc : ParsedIncrease) (ts : Int) (g : RecipientGroup) : RecipientGroup :=
  ⟨g.name, g.id, g.payments ++ [⟨inc.amount, inc.admin, ts⟩]⟩

/-- One iteration of the first verify-all loop (warReport.ts 563-593):
skip texts the template regex does not match, create the recipient's group
if absent, then append the payment to it. -/
def addPayment (acc : List (String × RecipientGroup)) (pn : PaymentNews) :
    List (String × RecipientGroup) :=
  match pn.text with
  | none => acc
  | some inc =>
    match List.lookup (recipientKey inc) (ensureRecipient acc inc) with
    | some g => mapSet (ensureRecipient acc inc) (recipientKey inc) (bumpGroup inc pn.timestamp g)
    | none => ensureRecipient acc inc

/-- The `paymentsByRecipient` map after the first loop over the feed. -/
def paymentsByRecipient (feed : List PaymentNews) : List (String × RecipientGroup) :=
  feed.foldl addPayment []

/-- Value of a per-recipient `paymentsByAmount` entry: occurrence count
and the admins involved, in first-seen order without repeats. -/
structure AmountInfo where
  count : Nat
  admins : List String
  deriving Repr, DecidableEq

/-- `if (!info.admins.includes(admin)) info.admins.push(admin)`
(warReport.ts 613-615). -/
def dedupAppend (l : List String) (s : String) : List String :=
  if s ∈ l then l else l ++ [s]

/-- `if (!paymentsByAmount.has(payment.amount)) paymentsByAmount.set(
payment.amount, {count: 0, admins: []})` (warReport.ts 604-609). -/
def ensureAmount (acc : List (Nat × AmountInfo)) (a : Nat) : List (Nat × AmountInfo) :=
  if (List.lookup a acc).isSome then acc else mapSet acc a ⟨0, []⟩

/-- `info.count++` plus the admin dedup push (warReport.ts 611-615). -/
def bumpInfo (admin : String) (i : AmountInfo) : AmountInfo :=
  ⟨i.count + 1, dedupAppend i.admins admin⟩

/-- One iteration of the per-recipient amount loop (warReport.ts 603-616). -/
def addAmount (acc : List (Nat × AmountInfo)) (p : PayRecord) : List (Nat × AmountInfo) :=
  match List.lookup p.amount (ensureAmount acc p.amount) with
  | some info => mapSet (ensureAmount acc p.amount) p.amount (bumpInfo p.admin info)
  | none => ensureAmount acc p.amount

/-- The per-recipient `paymentsByAmount` map. -/
def paymentsByAmount (ps : List PayRecord) : List (Nat × AmountInfo) :=
  ps.foldl addAmount []

/-- A flagged suspected duplicate (warReport.ts 620-628). -/
structure DuplicateFlag where
  name : String
  id : String
  amount : Nat
  count : Nat
  admins : List String
  deriving Repr, DecidableEq

/-- The verify-all duplicate scan (warReport.ts 554-630): group the feed
by recipient key, group each recipient's payments by amount, and flag
every amount group with more than one occurrence, carrying its count and
admins. -/
def potentialDuplicates (feed : List PaymentNews) : List DuplicateFlag :=
  (paymentsByRecipient feed).flatMap (fun kg =>
    (paymentsByAmount kg.2.payments).filterMap (fun ai =>
      if 1 < ai.2.count then some ⟨kg.2.name, kg.2.id, ai.1, ai.2.count, ai.2.admins⟩
      else none))

/-- The parsed transaction feed: regex outcome and timestamp of the feed
entries the template regex matches, in feed order. -/
def parsedFeed (feed : List PaymentNews) : List (ParsedIncrease × Int) :=
  feed.filterMap (fun pn => pn.text.map (fun inc => (inc, pn.timestamp)))

/-- The payments recorded under one recipient key, in feed order. -/
def keyPayments (k : String) (feed : List PaymentNews) : List PayRecord :=
  ((parsedFeed feed).filter (fun x => recipientKey x.1 = k)).map
    (fun x => ⟨x.1.amount, x.1.admin, x.2⟩)

/-- Number of parsed feed entries carrying a given (recipient key, amount)
pair. -/
def pairCount (feed : List PaymentNews) (k : String) (a : Nat) : Nat :=
  (parsedFeed feed).countP (fun x => recipientKey x.1 = k && x.1.amount = a)

/-- The dedup-append fold of the admins of the payments with amount `a`,
mirroring the in-place `admins.push`. -/
def adminsFor (a : Nat) (init : List String) (ps : List PayRecord) : List String :=
  ps.foldl (fun l p => if p.amount = a then dedupAppend l p.admin else l) init

/-- The deduplicated admins of one (recipient key, amount) group. -/
def pairAdmins (feed : List PaymentNews) (k : String) (a : Nat) : List String :=
  adminsFor a [] (keyPayments k feed)

/-- The default group installed before the first payment to a recipient. -/
def groupOr (acc : List (String × RecipientGroup)) (inc : ParsedIncrease) : RecipientGroup :=
  (List.lookup (recipientKey inc) acc).getD ⟨recipientName inc, recipientKey inc, []⟩

/-- The default info installed before the first payment of an amount. -/
def infoOr (acc : List (Nat × AmountInfo)) (a : Nat) : AmountInfo :=
  (List.lookup a acc).getD ⟨0, []⟩

/-! ### Lookup and key lemmas for the verify-all grouping -/

theorem keys_mapSet {κ α : Type} [DecidableEq κ] (m : List (κ × α)) (k : κ) (v : α) :
    (mapSet m k v).map Prod.fst =
      if (List.lookup k m).isSome then m.map Prod.fst else m.map Prod.fst ++ [k] := by
  unfold mapSet
  by_cases hs : (List.lookup k m).isSome
  · rw [if_pos hs, if_pos hs, List.map_map]
    apply List.map_congr_left
    intro e _
    by_cases h : e.1 = k <;> simp [h]
  · rw [if_neg hs, if_neg hs, List.map_append]
    rfl

theorem nodupKeys_mapSet {κ α : Type} [DecidableEq κ] (m : List (κ × α)) (k : κ) (v : α)
    (h : (m.map Prod.fst).Nodup) : ((mapSet m k v).map Prod.fst).Nodup := by
  rw [keys_mapSet]
  by_cases hs : (List.lookup k m).isSome
  · rw [if_pos hs]
    exact h
  · rw [if_neg hs]
    have hk : k ∉ m.map Prod.fst :=
      (lookup_eq_none_iff_keys m k).mp (Option.not_isSome_iff_eq_none.mp hs)
    simp [List.nodup_append, h, hk]

theorem mem_iff_lookup {κ α : Type} [DecidableEq κ] (l : List (κ × α))
    (hnd : (l.map Prod.fst).Nodup) (k : κ) (v : α) :
    (k, v) ∈ l ↔ List.lookup k l = some v := by
  induction l with
  | nil => simp
  | cons e t ih =>
    obtain ⟨a, b⟩ := e
    rw [lookup_cons_ite]
    rw [List.map_cons, List.nodup_cons] at hnd
    by_cases hk : k = a
    · subst hk
      rw [if_pos rfl]
      constructor
      · intro hm
        rcases List.mem_cons.mp hm with he | hm2
        · rw [(Prod.mk.injEq _ _ _ _).mp he.symm |>.2]
        · exact absurd (List.mem_map_of_mem Prod.fst hm2) hnd.1
      · intro hs
        rw [Option.some_inj.mp hs] at *
        exact List.mem_cons_self _ _
    · rw [if_neg hk, ← ih hnd.2]
      constructor
      · intro hm
        rcases List.mem_cons.mp hm with he | hm2
        · exact absurd ((Prod.mk.injEq _ _ _ _).mp he).1 hk
        · exact hm2
      · intro hm
        exact List.mem_cons_of_mem _ hm

theorem lookup_ensureRecipient (acc : List (String × RecipientGroup)) (inc : ParsedIncrease)
    (j : String) :
    List.lookup j (ensureRecipient acc inc) =
      if j = recipientKey inc then some (groupOr acc inc) else List.lookup j acc := by
  unfold ensureRecipient groupOr
  by_cases hs : (List.lookup (recipientKey inc) acc).isSome
  · rw [if_pos hs]
    obtain ⟨g, hg⟩ := Option.isSome_iff_exists.mp hs
    by_cases hj : j = recipientKey inc
    · rw [if_pos hj, hj, hg]
      rfl
    · rw [if_neg hj]
  · rw [if_neg hs, lookup_mapSet]
    have hn := Option.not_isSome_iff_eq_none.mp hs
    by_cases hj : j = recipientKey inc
    · rw [if_pos hj, if_pos hj, hn]
      rfl
    · rw [if_neg hj, if_neg hj]

theorem nodupKeys_ensureRecipient (acc : List (String × RecipientGroup)) (inc : ParsedIncrease)
    (h : (acc.map Prod.fst).Nodup) : ((ensureRecipient acc inc).map Prod.fst).Nodup := by
  unfold ensureRecipient
  by_cases hs : (List.lookup (recipientKey inc) acc).isSome
  · rw [if_pos hs]
    exact h
  · rw [if_neg hs]
    exact nodupKeys_mapSet _ _ _ h

theorem addPayment_none (acc : List (String × RecipientGroup)) (ts : Int) :
    addPayment acc ⟨none, ts⟩ = acc := rfl

theorem lookup_addPayment_some (acc : List (String × RecipientGroup)) (inc : ParsedIncrease)
    (ts : Int) (j : String) :
    List.lookup j (addPayment acc ⟨some inc, ts⟩) =
      if j = recipientKey inc then some (bumpGroup inc ts (groupOr acc inc))
      else List.lookup j acc := by
  have hl : List.lookup (recipientKey inc) (ensureRecipient acc inc) = some (groupOr acc inc) := by
    rw [lookup_ensureRecipient, if_pos rfl]
  rw [show addPayment acc ⟨some inc, ts⟩ =
      match List.lookup (recipientKey inc) (ensureRecipient acc inc) with
      | some g => mapSet (ensureRecipient acc inc) (recipientKey inc) (bumpGroup inc ts g)
      | none => ensureRecipient acc inc from rfl, hl]
  show List.lookup j
      (mapSet (ensureRecipient acc inc) (recipientKey inc) (bumpGroup inc ts (groupOr acc inc))) = _
  rw [lookup_mapSet]
  by_cases hj : j = recipientKey inc
  · rw [if_pos hj, if_pos hj]
  · rw [if_neg hj, if_neg hj, lookup_ensureRecipient, if_neg hj]

theorem nodupKeys_addPayment (acc : List (String × RecipientGroup)) (pn : PaymentNews)
    (h : (acc.map Prod.fst).Nodup) : ((addPayment acc pn).map Prod.fst).Nodup := by
  obtain ⟨txt, ts⟩ := pn
  cases txt with
  | none => exact h
  | some inc =>
    show ((match List.lookup (recipientKey inc) (ensureRecipient acc inc) with
        | some g => mapSet (ensureRecipient acc inc) (recipientKey inc) (bumpGroup inc ts g)
        | none => ensureRecipient acc inc).map Prod.fst).Nodup
    cases hv : List.lookup (recipientKey inc) (ensureRecipient acc inc) with
    | none => exact nodupKeys_ensureRecipient acc inc h
    | some g => exact nodupKeys_mapSet _ _ _ (nodupKeys_ensureRecipient acc inc h)

theorem lookup_ensureAmount (acc : List (Nat × AmountInfo)) (a j : Nat) :
    List.lookup j (ensureAmount acc a) =
      if j = a then some (infoOr acc a) else List.lookup j acc := by
  unfold ensureAmount infoOr
  by_cases hs : (List.lookup a acc).isSome
  · rw [if_pos hs]
    obtain ⟨i, hi⟩ := Option.isSome_iff_exists.mp hs
    by_cases hj : j = a
    · rw [if_pos hj, hj, hi]
      rfl
    · rw [if_neg hj]
  · rw [if_neg hs, lookup_mapSet]
    have hn := Option.not_isSome_iff_eq_none.mp hs
    by_cases hj : j = a
    · rw [if_pos hj, if_pos hj, hn]
      rfl
    · rw [if_neg hj, if_neg hj]

theorem nodupKeys_ensureAmount (acc : List (Nat × AmountInfo)) (a : Nat)
    (h : (acc.map Prod.fst).Nodup) : ((ensureAmount acc a).map Prod.fst).Nodup := by
  unfold ensureAmount
  by_cases hs : (List.lookup a acc).isSome
  · rw [if_pos hs]
    exact h
  · rw [if_neg hs]
    exact nodupKeys_mapSet _ _ _ h

theorem lookup_addAmount (acc : List (Nat × AmountInfo)) (p : PayRecord) (j : Nat) :
    List.lookup j (addAmount acc p) =
      if j = p.amount then some (bumpInfo p.admin (infoOr acc p.amount))
      else List.lookup j acc := by
  have hl : List.lookup p.amount (ensureAmount acc p.amount) = some (infoOr acc p.amount) := by
    rw [lookup_ensureAmount, if_pos rfl]
  rw [show addAmount acc p =
      match List.lookup p.amount (ensureAmount acc p.amount) with
      | some info => mapSet (ensureAmount acc p.amount) p.amount (bumpInfo p.admin info)
      | none => ensureAmount acc p.amount from rfl, hl]
  show List.lookup j
      (mapSet (ensureAmount acc p.amount) p.amount (bumpInfo p.admin (infoOr acc p.amount))) = _
  rw [lookup_mapSet]
  by_cases hj : j = p.amount
  · rw [if_pos hj, if_pos hj]
  · rw [if_neg hj, if_neg hj, lookup_ensureAmount, if_neg hj]

theorem nodupKeys_addAmount (acc : List (Nat × AmountInfo)) (p : PayRecord)
    (h : (acc.map Prod.fst).Nodup) : ((addAmount acc p).map Prod.fst).Nodup := by
  unfold addAmount
  cases hv : List.lookup p.amount (ensureAmount acc p.amount) with
  | none => exact nodupKeys_ensureAmount acc p.amount h
  | some info => exact nodupKeys_mapSet _ _ _ (nodupKeys_ensureAmount acc p.amount h)

theorem nodupKeys_paymentsByRecipient (feed : List PaymentNews) :
    ((paymentsByRecipient feed).map Prod.fst).Nodup := by
  unfold paymentsByRecipient
  have h : ∀ (acc : List (String × RecipientGroup)), (acc.map Prod.fst).Nodup →
      ((feed.foldl addPayment acc).map Prod.fst).Nodup := by
    induction feed with
    | nil => exact fun acc h => h
    | cons pn feed ih =>
      intro acc h
      rw [List.foldl_cons]
      exact ih _ (nodupKeys_addPayment acc pn h)
  exact h [] List.nodup_nil

theorem nodupKeys_paymentsByAmount (ps : List PayRecord) :
    ((paymentsByAmount ps).map Prod.fst).Nodup := by
  unfold paymentsByAmount
  have h : ∀ (acc : List (Nat × AmountInfo)), (acc.map Prod.fst).Nodup →
      ((ps.foldl addAmount acc).map Prod.fst).Nodup := by
    induction ps with
    | nil => exact fun acc h => h
    | cons p ps ih =>
      intro acc h
      rw [List.foldl_cons]
      exact ih _ (nodupKeys_addAmount acc p h)
  exact h [] List.nodup_nil

/-- Fold characterization of the recipient grouping: looking up a key
after the loop returns the initial group extended with that key's
payments, or a fresh group named after the key's first parsed entry. -/
theorem foldl_addPayment_lookup (feed : List PaymentNews) :
    ∀ (acc : List (String × RecipientGroup)) (k : String),
      List.lookup k (feed.foldl addPayment acc) =
        match List.lookup k acc with
        | some g => some ⟨g.name, g.id, g.payments ++ keyPayments k feed⟩
        | none =>
          match (parsedFeed feed).find? (fun x => recipientKey x.1 = k) with
          | some x => some ⟨recipientName x.1, k, keyPayments k feed⟩
          | none => none := by
  induction feed with
  | nil =>
    intro acc k
    show List.lookup k acc = _
    cases List.lookup k acc with
    | none => rfl
    | some g =>
      show some g = some ⟨g.name, g.id, g.payments ++ keyPayments k []⟩
      rw [show keyPayments k [] = [] from rfl, List.append_nil]
  | cons pn feed ih =>
    intro acc k
    obtain ⟨txt, ts⟩ := pn
    rw [List.foldl_cons]
    cases txt with
    | none =>
      have hkp : keyPayments k (⟨none, ts⟩ :: feed) = keyPayments k feed := rfl
      have hpf : parsedFeed (⟨none, ts⟩ :: feed) = parsedFeed feed := rfl
      rw [addPayment_none, ih acc k, hkp, hpf]
    | some inc =>
      have hpf : parsedFeed (⟨some inc, ts⟩ :: feed) = (inc, ts) :: parsedFeed feed := rfl
      rw [ih (addPayment acc ⟨some inc, ts⟩) k]
      by_cases hk : recipientKey inc = k
      · have hla : List.lookup k (addPayment acc ⟨some inc, ts⟩) =
            some (bumpGroup inc ts (groupOr acc inc)) := by
          rw [lookup_addPayment_some, if_pos hk.symm]
        have hkp : keyPayments k (⟨some inc, ts⟩ :: feed) =
            ⟨inc.amount, inc.admin, ts⟩ :: keyPayments k feed := by
          unfold keyPayments
          rw [hpf, List.filter_cons_of_pos, List.map_cons]
          exact decide_eq_true hk
        have hfd : (parsedFeed (⟨some inc, ts⟩ :: feed)).find?
            (fun x => recipientKey x.1 = k) = some (inc, ts) := by
          rw [hpf]
          exact List.find?_cons_of_pos _ (decide_eq_true hk)
        rw [hla, hkp, hfd]
        cases hacc : List.lookup k acc with
        | some g =>
          have hgo : groupOr acc inc = g := by
            unfold groupOr
            rw [hk, hacc]
            rfl
          rw [hgo]
          show some (⟨g.name, g.id,
              (g.payments ++ [⟨inc.amount, inc.admin, ts⟩]) ++ keyPayments k feed⟩ :
                RecipientGroup) =
            some (⟨g.name, g.id,
              g.payments ++ ⟨inc.amount, inc.admin, ts⟩ :: keyPayments k feed⟩ :
                RecipientGroup)
          rw [List.append_assoc, List.singleton_append]
        | none =>
          have hgo : groupOr acc inc = ⟨recipientName inc, recipientKey inc, []⟩ := by
            unfold groupOr
            rw [hk, hacc]
            rfl
          rw [hgo]
          show some (⟨recipientName inc, recipientKey inc,
              ([] ++ [⟨inc.amount, inc.admin, ts⟩]) ++ keyPayments k feed⟩ :
                RecipientGroup) =
            some (⟨recipientName inc, k,
              ⟨inc.amount, inc.admin, ts⟩ :: keyPayments k feed⟩ : RecipientGroup)
          rw [hk, List.nil_append, List.singleton_append]
      · have hla : List.lookup k (addPayment acc ⟨some inc, ts⟩) = List.lookup k acc := by
          rw [lookup_addPayment_some, if_neg (fun h => hk h.symm)]
        have hkp : keyPayments k (⟨some inc, ts⟩ :: feed) = keyPayments k feed := by
          unfold keyPayments
          rw [hpf, List.filter_cons_of_neg]
          exact fun h => hk (of_decide_eq_true h)
        have hfd : (parsedFeed (⟨some inc, ts⟩ :: feed)).find?
              (fun x => recipientKey x.1 = k) =
            (parsedFeed feed).find? (fun x => recipientKey x.1 = k) := by
          rw [hpf]
          exact List.find?_cons_of_neg _ (fun h => hk (of_decide_eq_true h))
        rw [hla, hkp, hfd]

/-- Lookup characterization of the full `paymentsByRecipient` map. -/
theorem paymentsByRecipient_lookup (feed : List PaymentNews) (k : String) :
    List.lookup k (paymentsByRecipient feed) =
      match (parsedFeed feed).find? (fun x => recipientKey x.1 = k) with
      | some x => some ⟨recipientName x.1, k, keyPayments k feed⟩
      | none => none := by
  unfold paymentsByRecipient
  rw [foldl_addPayment_lookup feed [] k]
  rfl

/-- Fold characterization of the per-recipient amount grouping: looking up
an amount after the loop returns the count of its occurrences added to the
initial count, with the dedup-append fold of its admins. -/
theorem foldl_addAmount_lookup (ps : List PayRecord) :
    ∀ (acc : List (Nat × AmountInfo)) (a : Nat),
      List.lookup a (ps.foldl addAmount acc) =
        match List.lookup a acc with
        | some info => some ⟨info.count + ps.countP (fun q => q.amount = a),
            adminsFor a info.admins ps⟩
        | none =>
          if ps.any (fun q => q.amount = a) then
            some ⟨ps.countP (fun q => q.amount = a), adminsFor a [] ps⟩
          else none := by
  induction ps with
  | nil =>
    intro acc a
    show List.lookup a acc = _
    cases List.lookup a acc with
    | none => rfl
    | some info => rfl
  | cons p ps ih =>
    intro acc a
    rw [List.foldl_cons, ih (addAmount acc p) a]
    by_cases hpa : p.amount = a
    · have hla : List.lookup a (addAmount acc p) =
          some (bumpInfo p.admin (infoOr acc p.amount)) := by
        rw [lookup_addAmount, if_pos hpa.symm]
      have hcnt : (p :: ps).countP (fun q => q.amount = a) =
          ps.countP (fun q => q.amount = a) + 1 :=
        List.countP_cons_of_pos _ _ (decide_eq_true hpa)
      cases hacc : List.lookup a acc with
      | some info =>
        have hio : infoOr acc p.amount = info := by
          unfold infoOr
          rw [hpa, hacc]
          rfl
        have hadm : adminsFor a info.admins (p :: ps) =
            adminsFor a (dedupAppend info.admins p.admin) ps := by
          unfold adminsFor
          rw [List.foldl_cons, if_pos hpa]
        rw [hla, hio]
        show some (⟨info.count + 1 + ps.countP (fun q => q.amount = a),
            adminsFor a (dedupAppend info.admins p.admin) ps⟩ : AmountInfo) =
          some (⟨info.count + (p :: ps).countP (fun q => q.amount = a),
            adminsFor a info.admins (p :: ps)⟩ : AmountInfo)
        rw [hcnt, hadm, Nat.add_assoc, Nat.add_comm 1]
      | none =>
        have hio : infoOr acc p.amount = ⟨0, []⟩ := by
          unfold infoOr
          rw [hpa, hacc]
          rfl
        have hany : (p :: ps).any (fun q => q.amount = a) = true := by
          rw [List.any_cons]
          simp [hpa]
        have hadm : adminsFor a [] (p :: ps) = adminsFor a (dedupAppend [] p.admin) ps := by
          unfold adminsFor
          rw [List.foldl_cons, if_pos hpa]
        rw [hla, hio]
        show some (⟨1 + ps.countP (fun q => q.amount = a),
            adminsFor a (dedupAppend [] p.admin) ps⟩ : AmountInfo) =
          (if (p :: ps).any (fun q => q.amount = a) = true then
            some (⟨(p :: ps).countP (fun q => q.amount = a),
              adminsFor a [] (p :: ps)⟩ : AmountInfo)
          else none)
        rw [if_pos hany, hcnt, hadm, Nat.add_comm 1]
    · have hla : List.lookup a (addAmount acc p) = List.lookup a acc := by
        rw [lookup_addAmount, if_neg (fun h => hpa h.symm)]
      have hcnt : (p :: ps).countP (fun q => q.amount = a) =
          ps.countP (fun q => q.amount = a) :=
        List.countP_cons_of_neg _ _ (fun h => hpa (of_decide_eq_true h))
      have hadm : ∀ init, adminsFor a init (p :: ps) = adminsFor a init ps := by
        intro init
        unfold adminsFor
        rw [List.foldl_cons, if_neg hpa]
      have hany : (p :: ps).any (fun q => q.amount = a) = ps.any (fun q => q.amount = a) := by
        rw [List.any_cons]
        simp [hpa]
      cases hacc : List.lookup a acc with
      | some info =>
        rw [hla, hacc]
        show some (⟨info.count + ps.countP (fun q => q.amount = a),
            adminsFor a info.admins ps⟩ : AmountInfo) =
          some (⟨info.count + (p :: ps).countP (fun q => q.amount = a),
            adminsFor a info.admins (p :: ps)⟩ : AmountInfo)
        rw [hcnt, hadm info.admins]
      | none =>
        rw [hla, hacc]
        show (if ps.any (fun q => q.amount = a) = true then
            some (⟨ps.countP (fun q => q.amount = a), adminsFor a [] ps⟩ : AmountInfo)
          else none) =
          (if (p :: ps).any (fun q => q.amount = a) = true then
            some (⟨(p :: ps).countP (fun q => q.amount = a),
              adminsFor a [] (p :: ps)⟩ : AmountInfo)
          else none)
        rw [hany, hcnt, hadm ([])]

/-- Lookup characterization of a full `paymentsByAmount` map. -/
theorem paymentsByAmount_lookup (ps : List PayRecord) (a : Nat) :
    List.lookup a (paymentsByAmount ps) =
      if ps.any (fun q => q.amount = a) then
        some ⟨ps.countP (fun q => q.amount = a), adminsFor a [] ps⟩
      else none := by
  unfold paymentsByAmount
  rw [foldl_addAmount_lookup ps [] a]
  rfl

/-- Counting one amount inside a recipient's payments equals counting the
(key, amount) pair over the whole parsed feed. -/
theorem countP_keyPayments (feed : List PaymentNews) (k : String) (a : Nat) :
    (keyPayments k feed).countP (fun q => q.amount = a) = pairCount feed k a := by
  unfold keyPayments pairCount
  rw [List.countP_map, List.countP_filter]
  congr 1
  funext x
  simp only [Function.comp]
  exact Bool.and_comm _ _

/-- Membership in the duplicate scan, unfolded to the two grouping maps. -/
theorem mem_potentialDuplicates (feed : List PaymentNews) (f : DuplicateFlag) :
    f ∈ potentialDuplicates feed ↔
      ∃ kg ∈ paymentsByRecipient feed, ∃ ai ∈ paymentsByAmount kg.2.payments,
        1 < ai.2.count ∧ f = ⟨kg.2.name, kg.2.id, ai.1, ai.2.count, ai.2.admins⟩ := by
  unfold potentialDuplicates
  rw [List.mem_flatMap]
  constructor
  · rintro ⟨kg, hkg, hmem⟩
    obtain ⟨ai, hai, hf⟩ := List.mem_filterMap.mp hmem
    by_cases h : 1 < ai.2.count
    · rw [if_pos h] at hf
      exact ⟨kg, hkg, ai, hai, h, (Option.some_inj.mp hf).symm⟩
    · rw [if_neg h] at hf
      cases hf
  · rintro ⟨kg, hkg, ai, hai, h, hf⟩
    exact ⟨kg, hkg, List.mem_filterMap.mpr ⟨ai, hai, by rw [if_pos h, hf]⟩⟩

/-- Soundness of the duplicate scan: every flag records its group's
(recipient key, amount) occurrence count over the parsed feed — which is
greater than one — and the group's deduplicated admins. -/
theorem potentialDuplicates_sound (feed : List PaymentNews) (f : DuplicateFlag)
    (hf : f ∈ potentialDuplicates feed) :
    1 < f.count ∧ f.count = pairCount feed f.id f.amount ∧
      f.admins = pairAdmins feed f.id f.amount := by
  obtain ⟨kg, hkg, ai, hai, hcnt, hfe⟩ := (mem_potentialDuplicates feed f).mp hf
  obtain ⟨k, g⟩ := kg
  obtain ⟨a, info⟩ := ai
  have hlk : List.lookup k (paymentsByRecipient feed) = some g :=
    (mem_iff_lookup _ (nodupKeys_paymentsByRecipient feed) k g).mp hkg
  rw [paymentsByRecipient_lookup] at hlk
  cases hfind : (parsedFeed feed).find? (fun x => recipientKey x.1 = k) with
  | none =>
    rw [hfind] at hlk
    cases hlk
  | some x =>
    rw [hfind] at hlk
    have hg : g = ⟨recipientName x.1, k, keyPayments k feed⟩ := (Option.some_inj.mp hlk).symm
    have hla : List.lookup a (paymentsByAmount g.payments) = some info :=
      (mem_iff_lookup _ (nodupKeys_paymentsByAmount g.payments) a info).mp hai
    rw [paymentsByAmount_lookup] at hla
    by_cases hany : g.payments.any (fun q => q.amount = a) = true
    · rw [if_pos hany] at hla
      have hinfo : info = ⟨g.payments.countP (fun q => q.amount = a),
          adminsFor a [] g.payments⟩ := (Option.some_inj.mp hla).symm
      have hgp : g.payments = keyPayments k feed := by rw [hg]
      have hgid : g.id = k := by rw [hg]
      have hcount : info.count = pairCount feed k a := by
        rw [hinfo]
        show g.payments.countP (fun q => q.amount = a) = _
        rw [hgp, countP_keyPayments]
      have hadmins : info.admins = pairAdmins feed k a := by
        rw [hinfo]
        show adminsFor a [] g.payments = _
        rw [hgp]
        rfl
      have hfid : f.id = k := by rw [hfe, hgid]
      have hfam : f.amount = a := by rw [hfe]
      have hfcount : f.count = info.count := by rw [hfe]
      have hfadmins : f.admins = info.admins := by rw [hfe]
      refine ⟨by rw [hfcount]; exact hcnt, ?_, ?_⟩
      · rw [hfcount, hcount, hfid, hfam]
      · rw [hfadmins, hadmins, hfid, hfam]
    · rw [if_neg hany] at hla
      cases hla

/-- Completeness of the duplicate scan: every (recipient key, amount) pair
occurring more than once in the parsed feed is flagged, with its count and
deduplicated admins. -/
theorem potentialDuplicates_complete (feed : List PaymentNews) (k : String) (a : Nat)
    (h : 1 < pairCount feed k a) :
    ∃ name, (⟨name, k, a, pairCount feed k a, pairAdmins feed k a⟩ : DuplicateFlag)
      ∈ potentialDuplicates feed := by
  have h0 : 0 < (parsedFeed feed).countP (fun x => recipientKey x.1 = k && x.1.amount = a) := by
    unfold pairCount at h
    omega
  obtain ⟨x0, hx0mem, hx0p⟩ := List.countP_pos.mp h0
  have hx0k : recipientKey x0.1 = k := by
    have := (Bool.and_eq_true _ _).mp hx0p
    exact of_decide_eq_true this.1
  have hfs : ((parsedFeed feed).find? (fun x => recipientKey x.1 = k)).isSome := by
    rw [List.find?_isSome]
    exact ⟨x0, hx0mem, decide_eq_true hx0k⟩
  obtain ⟨x, hx⟩ := Option.isSome_iff_exists.mp hfs
  have hlk : List.lookup k (paymentsByRecipient feed) =
      some ⟨recipientName x.1, k, keyPayments k feed⟩ := by
    rw [paymentsByRecipient_lookup, hx]
  have hmem1 : (k, (⟨recipientName x.1, k, keyPayments k feed⟩ : RecipientGroup))
      ∈ paymentsByRecipient feed :=
    (mem_iff_lookup _ (nodupKeys_paymentsByRecipient feed) _ _).mpr hlk
  have hcntP : (keyPayments k feed).countP (fun q => q.amount = a) = pairCount feed k a :=
    countP_keyPayments feed k a
  have hany : (keyPayments k feed).any (fun q => q.amount = a) = true := by
    rw [List.any_eq_true]
    have h1 : 0 < (keyPayments k feed).countP (fun q => q.amount = a) := by
      rw [hcntP]
      omega
    obtain ⟨q, hq, hqa⟩ := List.countP_pos.mp h1
    exact ⟨q, hq, hqa⟩
  have hla : List.lookup a (paymentsByAmount (keyPayments k feed)) =
      some ⟨pairCount feed k a, pairAdmins feed k a⟩ := by
    rw [paymentsByAmount_lookup, if_pos hany, hcntP]
    rfl
  have hmem2 : (a, (⟨pairCount feed k a, pairAdmins feed k a⟩ : AmountInfo))
      ∈ paymentsByAmount (keyPayments k feed) :=
    (mem_iff_lookup _ (nodupKeys_paymentsByAmount _) _ _).mpr hla
  exact ⟨recipientName x.1, (mem_potentialDuplicates feed _).mpr
    ⟨(k, ⟨recipientName x.1, k, keyPayments k feed⟩), hmem1,
     (a, ⟨pairCount feed k a, pairAdmins feed k a⟩), hmem2, h, rfl⟩⟩

/-- C7: the aggregate verify-all check parses each feed entry for the
(recipient key extracted from the bracketed id, amount) pair and flags
exactly the pairs occurring more than once: every emitted flag carries a
count greater than 1 equal to the pair's occurrence count over the parsed
feed together with the pair's deduplicated admin list, and conversely
every pair with occurrence count greater than 1 is flagged with that count
and admin list. -/
theorem verify_all_duplicate_grouping (feed : List PaymentNews) :
    (∀ f ∈ potentialDuplicates feed,
        1 < f.count ∧ f.count = pairCount feed f.id f.amount ∧
          f.admins = pairAdmins feed f.id f.amount)
  ∧ (∀ k a, 1 < pairCount feed k a →
        ∃ name, (⟨name, k, a, pairCount feed k a, pairAdmins feed k a⟩ : DuplicateFlag)
          ∈ potentialDuplicates feed) :=
  ⟨fun f hf => potentialDuplicates_sound feed f hf,
   fun k a h => potentialDuplicates_complete feed k a h⟩

/-- Concrete feed for the C7 witness: two 500-payments to `Zed [99]` by
different admins, plus one unparsable entry. -/
def c7Feed : List PaymentNews :=
  [⟨some ⟨"A1", "Zed [99]", 500⟩, 100⟩,
   ⟨some ⟨"A2", "Zed [99]", 500⟩, 200⟩,
   ⟨none, 300⟩]

/-- C7 witness: on `c7Feed` the pair ("99", 500) occurs twice, the theorem
yields its flag, and the soundness direction applies to the concrete flag
the scan emits. -/
theorem verify_all_duplicate_grouping_witness :
    1 < pairCount c7Feed "99" 500
  ∧ (∃ name, (⟨name, "99", 500, pairCount c7Feed "99" 500,
      pairAdmins c7Feed "99" 500⟩ : DuplicateFlag) ∈ potentialDuplicates c7Feed)
  ∧ 1 < (⟨"Zed", "99", 500, 2, ["A1", "A2"]⟩ : DuplicateFlag).count :=
  ⟨by decide,
   (verify_all_duplicate_grouping c7Feed).2 "99" 500 (by decide),
   ((verify_all_duplicate_grouping c7Feed).1 ⟨"Zed", "99", 500, 2, ["A1", "A2"]⟩
     (by decide)).1⟩

/-- C10: every parsed transaction whose recipient text has no bracketed id
is grouped under the single shared key "unknown"; hence two id-less
payments of one amount anywhere in the feed make that amount's "unknown"
group count at least 2, and the group is flagged as a suspected duplicate. -/
theorem unknown_recipients_share_key (feed : List PaymentNews)
    (pn1 pn2 : PaymentNews) (inc1 inc2 : ParsedIncrease)
    (hsub : List.Sublist [pn1, pn2] feed)
    (h1 : pn1.text = some inc1) (h2 : pn2.text = some inc2)
    (hid1 : extractBracketId inc1.recipient = none)
    (hid2 : extractBracketId inc2.recipient = none)
    (hamt : inc2.amount = inc1.amount) :
    (∀ inc : ParsedIncrease, extractBracketId inc.recipient = none →
        recipientKey inc = "unknown")
  ∧ 2 ≤ pairCount feed "unknown" inc1.amount
  ∧ ∃ name, (⟨name, "unknown", inc1.amount, pairCount feed "unknown" inc1.amount,
        pairAdmins feed "unknown" inc1.amount⟩ : DuplicateFlag)
      ∈ potentialDuplicates feed := by
  have hkey : ∀ inc : ParsedIncrease, extractBracketId inc.recipient = none →
      recipientKey inc = "unknown" := by
    intro inc h
    unfold recipientKey
    rw [h]
    rfl
  have hcount : 2 ≤ pairCount feed "unknown" inc1.amount := by
    have hsub2 : List.Sublist (parsedFeed [pn1, pn2]) (parsedFeed feed) :=
      List.Sublist.filterMap _ hsub
    have hle := List.Sublist.countP_le
      (fun x => recipientKey x.1 = "unknown" && x.1.amount = inc1.amount) hsub2
    have hpf : parsedFeed [pn1, pn2] = [(inc1, pn1.timestamp), (inc2, pn2.timestamp)] := by
      unfold parsedFeed
      simp [h1, h2]
    have hcnt2 : (parsedFeed [pn1, pn2]).countP
        (fun x => recipientKey x.1 = "unknown" && x.1.amount = inc1.amount) = 2 := by
      rw [hpf]
      simp [List.countP_cons, hkey inc1 hid1, hkey inc2 hid2, hamt]
    unfold pairCount
    rw [hcnt2] at hle
    exact hle
  exact ⟨hkey, hcount,
    potentialDuplicates_complete feed "unknown" inc1.amount (by omega)⟩

/-- Concrete feed for the C10 witness: same-amount payments to two
distinct id-less recipients. -/
def c10Feed : List PaymentNews :=
  [⟨some ⟨"A1", "Ghost", 750⟩, 10⟩, ⟨some ⟨"A2", "Phantom", 750⟩, 20⟩]

/-- C10 witness: the two id-less 750-payments of `c10Feed` land in one
"unknown" group of size at least 2 and are flagged together. -/
theorem unknown_recipients_share_key_witness :
    2 ≤ pairCount c10Feed "unknown" 750
  ∧ ∃ name, (⟨name, "unknown", 750, pairCount c10Feed "unknown" 750,
        pairAdmins c10Feed "unknown" 750⟩ : DuplicateFlag)
      ∈ potentialDuplicates c10Feed := by
  have h := unknown_recipients_share_key c10Feed
    ⟨some ⟨"A1", "Ghost", 750⟩, 10⟩ ⟨some ⟨"A2", "Phantom", 750⟩, 20⟩
    ⟨"A1", "Ghost", 750⟩ ⟨"A2", "Phantom", 750⟩
    (by decide) rfl rfl (by decide) (by decide) rfl
  exact ⟨h.2.1, h.2.2⟩

/-! ### Payout CSV export and war-report CSV re-parse
(src/warReports/rwPayoutCommand.ts 322-354, warReportUtils.ts 17-76)

The export writes a header row `Member ID,Member Name,...,Payment
Amount,Status` and one comma-joined row per ledger entry. The parser takes
its field names from the file's first line and then reads `record.Member`
(and `record.Total_Payout`) from each row object; the whole parse is
wrapped in a try/catch that returns `[]` on any thrown error, which an
access to the missing `Member` property triggers
(`record.Member.match(...)` on `undefined`). `Option` models the
exception: `none` is a throw escaping the row loop. -/

/-- Quote-aware value splitter of `parseWarReportCSV` (warReportUtils.ts
34-49): a quote toggles `inQuotes` and is dropped; a comma outside quotes
ends the current value. -/
def splitCSVLineAux : List Char → Bool → List Char → List (List Char)
  | [], _, cur => [cur.reverse]
  | c :: rest, inQuotes, cur =>
    if c = '"' then splitCSVLineAux rest (!inQuotes) cur
    else if c = ',' ∧ inQuotes = false then cur.reverse :: splitCSVLineAux rest inQuotes []
    else splitCSVLineAux rest inQuotes (c :: cur)

/-- One data row split into values. -/
def splitCSVLine (line : List Char) : List (List Char) :=
  splitCSVLineAux line false []

/-- Embedding of `.replace(/^"|"$/g, '')`: drop one leading and one
trailing quote character. -/
def stripOuterQuotes (cs : List Char) : List Char :=
  let cs1 := match cs with
    | '"' :: t => t
    | other => other
  match cs1.reverse with
  | '"' :: t => t.reverse
  | _ => cs1

/-- A parsed CSV row: the record object as (header, value) assignments in
order, plus the optional `id`/`name` fields set when `Member` contains a
bracketed id (warReportUtils.ts 51-66). -/
structure ParsedRecord where
  fields : List (String × String)
  id : Option String
  name : Option String
  deriving Repr, DecidableEq

/-- Property read `record[k]` on an object built by sequential header
assignments: the last assignment wins. -/
def jsGet (k : String) (fields : List (String × String)) : Option String :=
  List.lookup k fields.reverse

/-- The row loop of `parseWarReportCSV` (warReportUtils.ts 27-69). `none`
models an exception escaping the loop: a row whose record has no `Member`
property throws (`record.Member.match` on `undefined`). Rows that are
blank or whose `Total_Payout` parses to a non-positive number are
skipped. -/
def parseRows (headers : List String) : List String → Option (List ParsedRecord)
  | [] => some []
  | line :: rest =>
    if (trimChars line.data).isEmpty then parseRows headers rest
    else
      let values := (splitCSVLine line.data).map (fun v => String.mk (stripOuterQuotes v))
      let record := List.zip headers values
      match jsGet "Member" record with
      | none => none
      | some memberVal =>
        let idOpt := extractBracketId memberVal
        let rec0 : ParsedRecord :=
          ⟨record, idOpt, idOpt.map (fun _ => nameBeforeBracket memberVal)⟩
        let payoutStr := match jsGet "Total_Payout" record with
          | none => "0"
          | some v => if stripCommas v = "" then "0" else stripCommas v
        match parseIntJS payoutStr with
        | none => (parseRows headers rest).map (fun rs => rec0 :: rs)
        | some n =>
          if n ≤ 0 then parseRows headers rest
          else (parseRows headers rest).map (fun rs => rec0 :: rs)

/-- Embedding of `parseWarReportCSV` (warReportUtils.ts 17-76): headers
from the first line (trimmed, outer quotes stripped), then the row loop;
a thrown error is caught and yields `[]`. -/
def parseWarReportCSV (csvContent : String) : List ParsedRecord :=
  match jsSplit '\n' csvContent with
  | [] => []
  | headerLine :: rest =>
    let headers := (jsSplit ',' headerLine).map
      (fun h => String.mk (stripOuterQuotes (trimChars h.data)))
    (parseRows headers rest).getD []

/-- Header row of the payout CSV export (rwPayoutCommand.ts 323-333). -/
def payoutCSVHeaders : String :=
  "Member ID,Member Name,War Hits,Under Respect Hits,Non War Hits,Assists,Points,Payment Amount,Status"

/-- Exact-rational model of `memberPoints.toFixed(2)`: the value scaled by
100 and rounded half-up, rendered with two decimal digits. Only flows into
CSV text. -/
def toFixed2 (q : ℚ) : String :=
  let scaled : Int := Int.fdiv (200 * q.num + q.den) (2 * q.den)
  let ip : Int := Int.fdiv scaled 100
  let fr : Nat := (scaled - 100 * ip).toNat
  Int.repr ip ++ "." ++ (if fr < 10 then "0" else "") ++ Nat.repr fr

/-- One export row (rwPayoutCommand.ts 335-351): entry id, quoted member
name, the four counters, points, payment amount, and PAID/PENDING status
from the verification map. -/
def exportPayoutRow (verified : String → Bool) (e : PayoutEntry) : String :=
  joinChar ','
    [Int.repr e.member_id,
     "\"" ++ e.Member ++ "\"",
     Nat.repr e.war_hits,
     Nat.repr e.under_respect_hits,
     Nat.repr e.non_war_hits,
     Nat.repr e.assists,
     toFixed2 e.points,
     Int.repr e.payment,
     if verified (Int.repr e.member_id) then "PAID" else "PENDING"]

/-- The exported CSV (rwPayoutCommand.ts 322-354):
`[headers, ...rows].join('\n')`. -/
def exportPayoutCSV (entries : List PayoutEntry) (verified : String → Bool) : String :=
  joinChar '\n' (payoutCSVHeaders :: entries.map (exportPayoutRow verified))

/-! ### The export/parse round trip -/

theorem splitOnChar_of_not_mem (c : Char) (l : List Char) (h : c ∉ l) :
    splitOnChar c l = [l] := by
  induction l with
  | nil => rfl
  | cons a t ih =>
    have ha : ¬a = c := by
      intro he
      apply h
      rw [← he]
      exact List.mem_cons_self a t
    have ht : c ∉ t := fun hm => h (List.mem_cons_of_mem a hm)
    rw [show splitOnChar c (a :: t) =
        if a = c then [] :: splitOnChar c t
        else match splitOnChar c t with
          | [] => [[a]]
          | h2 :: t2 => (a :: h2) :: t2 from rfl]
    rw [if_neg ha, ih ht]

theorem splitOnChar_append_cons (c : Char) (l1 rest : List Char) (h : c ∉ l1) :
    splitOnChar c (l1 ++ c :: rest) = l1 :: splitOnChar c rest := by
  induction l1 with
  | nil =>
    show splitOnChar c (c :: rest) = [] :: splitOnChar c rest
    rw [show splitOnChar c (c :: rest) =
        if c = c then [] :: splitOnChar c rest
        else match splitOnChar c rest with
          | [] => [[c]]
          | h2 :: t2 => (c :: h2) :: t2 from rfl, if_pos rfl]
  | cons a t ih =>
    have ha : ¬a = c := by
      intro he
      apply h
      rw [← he]
      exact List.mem_cons_self a t
    have ht : c ∉ t := fun hm => h (List.mem_cons_of_mem a hm)
    rw [List.cons_append]
    rw [show splitOnChar c (a :: (t ++ c :: rest)) =
        if a = c then [] :: splitOnChar c (t ++ c :: rest)
        else match splitOnChar c (t ++ c :: rest) with
          | [] => [[a]]
          | h2 :: t2 => (a :: h2) :: t2 from rfl]
    rw [if_neg ha, ih ht]

theorem lookup_zip_reverse_none (k : String) (l1 l2 : List String) (h : k ∉ l1) :
    List.lookup k (List.zip l1 l2).reverse = none := by
  rw [lookup_eq_none_iff_keys]
  intro hk
  obtain ⟨p, hp, hpk⟩ := List.mem_map.mp hk
  rw [List.mem_reverse] at hp
  obtain ⟨x, y⟩ := p
  apply h
  rw [← hpk]
  exact (List.of_mem_zip hp).1

/-- When `Member` is not among the file's headers, a non-blank row throws
(modelled by `none`): its record never receives a `Member` property. -/
theorem parseRows_cons_no_member (headers : List String) (hM : "Member" ∉ headers)
    (line : String) (rest : List String) :
    parseRows headers (line :: rest) =
      if (trimChars line.data).isEmpty = true then parseRows headers rest else none := by
  simp only [parseRows]
  by_cases hb : (trimChars line.data).isEmpty = true
  · rw [if_pos hb, if_pos hb]
  · rw [if_neg hb, if_neg hb]
    have hnone : jsGet "Member" (List.zip headers
        ((splitCSVLine line.data).map (fun v => String.mk (stripOuterQuotes v)))) = none := by
      unfold jsGet
      exact lookup_zip_reverse_none _ headers _ hM
    rw [hnone]

/-- With `Member` absent from the headers, the caught parse yields `[]`
whatever the data rows are. -/
theorem parseRows_no_member (headers : List String) (hM : "Member" ∉ headers) :
    ∀ lines, (parseRows headers lines).getD [] = [] := by
  intro lines
  induction lines with
  | nil => rfl
  | cons line rest ih =>
    rw [parseRows_cons_no_member headers hM line rest]
    by_cases hb : (trimChars line.data).isEmpty = true
    · rw [if_pos hb]
      exact ih
    · rw [if_neg hb]
      rfl

/-- Re-parsing any exported payout CSV yields no records: the export's
header row contains no `Member` column, so the parser's first non-blank
data row throws and the catch returns `[]`; with no data rows the loop
body never runs. -/
theorem parse_export_empty (entries : List PayoutEntry) (verified : String → Bool) :
    parseWarReportCSV (exportPayoutCSV entries verified) = [] := by
  have hnl : '\n' ∉ payoutCSVHeaders.data := by decide
  have hM : "Member" ∉ (jsSplit ',' payoutCSVHeaders).map
      (fun h => String.mk (stripOuterQuotes (trimChars h.data))) := by decide
  cases hrows : entries.map (exportPayoutRow verified) with
  | nil =>
    have hcsv : exportPayoutCSV entries verified = payoutCSVHeaders := by
      unfold exportPayoutCSV joinChar
      rw [hrows]
      show String.mk (List.intercalate ['\n'] [payoutCSVHeaders.data]) = payoutCSVHeaders
      rw [show List.intercalate ['\n'] [payoutCSVHeaders.data] =
        payoutCSVHeaders.data ++ [] from rfl, List.append_nil]
    rw [hcsv]
    have hsplit : jsSplit '\n' payoutCSVHeaders = [payoutCSVHeaders] := by
      unfold jsSplit
      rw [splitOnChar_of_not_mem _ _ hnl]
      rfl
    unfold parseWarReportCSV
    rw [hsplit]
    rfl
  | cons r rs =>
    have hcsv : (exportPayoutCSV entries verified).data =
        payoutCSVHeaders.data ++ '\n' :: List.intercalate ['\n'] ((r :: rs).map String.data) := by
      unfold exportPayoutCSV joinChar
      rw [hrows]
      show List.intercalate ['\n'] ((payoutCSVHeaders :: r :: rs).map String.data) = _
      simp [List.intercalate]
    have hsplit : jsSplit '\n' (exportPayoutCSV entries verified) =
        String.mk payoutCSVHeaders.data :: (splitOnChar '\n'
          (List.intercalate ['\n'] ((r :: rs).map String.data))).map String.mk := by
      unfold jsSplit
      rw [hcsv, splitOnChar_append_cons '\n' _ _ hnl, List.map_cons]
    unfold parseWarReportCSV
    rw [hsplit]
    show (parseRows ((jsSplit ',' (String.mk payoutCSVHeaders.data)).map
        (fun h => String.mk (stripOuterQuotes (trimChars h.data))))
        ((splitOnChar '\n' (List.intercalate ['\n'] ((r :: rs).map String.data))).map
          String.mk)).getD [] = []
    exact parseRows_no_member _ hM _

/-- C9 (corrected): the CSV round trip does not reproduce the ledger. The
export writes headers `Member ID,...,Payment Amount,Status`, while the
parser reads the `Member` (and `Total_Payout`) properties of each row
record; `Member` is not among the exported headers, so re-parsing an
exported ledger throws on its first data row and the catch returns the
empty record list. The claimed (id, amount, status) agreement holds only
for the empty ledger. -/
theorem csv_export_reparse_empty (entries : List PayoutEntry) (verified : String → Bool) :
    parseWarReportCSV (exportPayoutCSV entries verified) = [] :=
  parse_export_empty entries verified

/-- Ledger entry for the C9 counterexample. -/
def c9Entry : PayoutEntry := ⟨1, "Alice [1]", 5, 0, 0, 0, 5, 100⟩

/-- C9 counterexample: exporting a one-entry ledger and re-parsing it
yields zero records, so the round trip cannot reproduce the entry's
(id, amount, status) tuple. -/
theorem csv_roundtrip_counterexample :
    (parseWarReportCSV (exportPayoutCSV [c9Entry] (fun _ => false))).length = 0
  ∧ [c9Entry].length = 1 :=
  ⟨by rw [parse_export_empty [c9Entry] (fun _ => false)]; rfl, rfl⟩
